import Mathlib

/-!
Verification development for the slideshow description language and playback
scheduler of `samples/multiscreen-slideshow.c`.

The C code is shallowly embedded: C floats are modelled as exact rationals
(`ℚ`), C `int`s as `ℤ` with explicit truncation at float-to-int conversions,
NUL-terminated text as `List Char`, and the fatal-error policy (`msg(MSG_FATAL)`
followed by `exit(1)`) as an `Except` error value carrying the 1-based
line/column of the diagnostic.  Unbounded C `while` loops are embedded with an
explicit iteration budget ("fuel"): loops that consume exactly one character
per iteration receive exactly the number of remaining characters, which makes
the embedding coincide with the source loop; the two loops that consume a
variable positive number of characters per iteration (the top-level directive
loop and the `customimage` property loop) receive `remaining + 1` and a
distinguished `fuelOut` result, proved unreachable below (claim C10).
OpenGL, DGR networking and audio calls are external collaborators and are
dropped from the embedding; only the data they receive (the timeline, alpha
values, the loop-wrap event) is modelled.
-/

namespace Slideshow

/-- Character classification, from `IsAlpha` in the source. -/
def IsAlpha (c : Char) : Bool :=
  decide (('a' ≤ c ∧ c ≤ 'z') ∨ ('A' ≤ c ∧ c ≤ 'Z'))

/-- Character classification, from `IsNumber` in the source. -/
def IsNumber (c : Char) : Bool :=
  decide ('0' ≤ c ∧ c ≤ '9')

/-- `StringStartsWith` from the source: `strncmp(str, with, strlen(with)) == 0`
guarded by a length check, i.e. a plain prefix test. -/
def StringStartsWith : List Char → List Char → Bool
  | _, [] => true
  | [], _ :: _ => false
  | c :: cs, d :: ds => c == d && StringStartsWith cs ds

/-- `StringStartsWithWord` from the source: prefix test plus a word-boundary
check on the first character after the matched prefix. -/
def StringStartsWithWord (s w : List Char) : Bool :=
  StringStartsWith s w &&
    (match s.drop w.length with
     | [] => true
     | after :: _ => !(IsNumber after) && !(IsAlpha after))

/-- The `Parser` struct from the source.  `pos` is the byte offset of the C
`pos` pointer from `text`; the C `end` pointer is `text.length`. -/
structure Parser where
  text : List Char
  pos : Nat
  line : Nat
  linePos : Nat
deriving DecidableEq, Repr

/-- `CreateParser` from the source. -/
def CreateParser (text : List Char) : Parser :=
  { text := text, pos := 0, line := 1, linePos := 1 }

/-- `ParserAtEnd` from the source: `pos >= end`. -/
def ParserAtEnd (p : Parser) : Bool :=
  decide (p.text.length ≤ p.pos)

/-- `ParserPeek` from the source: current character, or the NUL sentinel at or
past the end. -/
def ParserPeek (p : Parser) : Char :=
  match p.text.drop p.pos with
  | [] => Char.ofNat 0
  | c :: _ => c

/-- The unconditional part of `ParserNext`: return the current character,
advance one byte, and update the line/column bookkeeping (newline increments
`line` and resets `linePos`). -/
def ParserAdvance (p : Parser) : Char × Parser :=
  let c := ParserPeek p
  (c, { p with
          pos := p.pos + 1,
          line := if c = '\n' then p.line + 1 else p.line,
          linePos := if c = '\n' then 1 else p.linePos + 1 })

/-- The diagnostics the source can emit before calling `exit(1)`. -/
inductive ErrMsg where
  /-- "reached end of file" (from `ParserNext`). -/
  | endOfFile : ErrMsg
  /-- "expected newline" (special case in `ParserExpect`). -/
  | expectedNewline : ErrMsg
  /-- "expected '&lt;tok&gt;'" (from `ParserExpect`, and the end-of-input error of
  `ParserGetString`, which prints the same text for the quote token). -/
  | expectedTok : List Char → ErrMsg
  /-- "expected number" (from `ParserGetFloat`). -/
  | expectedNumber : ErrMsg
  /-- "screen dimensions have already been set". -/
  | screenAlreadySet : ErrMsg
  /-- "screen dimensions have not been set, cannot define an image". -/
  | screenNotSet : ErrMsg
  /-- "unexpected character" (unknown property key in a `customimage` block). -/
  | unexpectedCharacter : ErrMsg
deriving DecidableEq, Repr

/-- A terminating outcome of the parse: either a fatal diagnostic with its
1-based line and column (the source prints it and exits), or exhaustion of the
explicit iteration budget of the embedding (proved unreachable in C10). -/
inductive PErr where
  | fatal : Nat → Nat → ErrMsg → PErr
  | fuelOut : PErr
deriving DecidableEq, Repr

instance exceptDecEq {ε α : Type} [DecidableEq ε] [DecidableEq α] :
    DecidableEq (Except ε α) := fun x y =>
  match x, y with
  | .error a, .error b =>
    if h : a = b then .isTrue (by rw [h])
    else .isFalse (fun hc => by cases hc; exact h rfl)
  | .ok a, .ok b =>
    if h : a = b then .isTrue (by rw [h])
    else .isFalse (fun hc => by cases hc; exact h rfl)
  | .error _, .ok _ => .isFalse (fun hc => by cases hc)
  | .ok _, .error _ => .isFalse (fun hc => by cases hc)

/-- `ParserNext` from the source: fatal only when the position is already
strictly past the end (`self->pos > self->end`); otherwise return the current
character (the NUL sentinel at the end) and advance. -/
def ParserNext (p : Parser) : Except PErr (Char × Parser) :=
  if p.text.length < p.pos then
    .error (.fatal p.line p.linePos .endOfFile)
  else
    .ok (ParserAdvance p)

/-- `ParserNextN` from the source, at the call sites of `ParserExpect` and
`ParserCheck`: both only call it after a successful prefix match, so the
guarded fatal branch of `ParserNext` is unreachable and the advance is pure. -/
def ParserAdvanceN (p : Parser) : Nat → Parser
  | 0 => p
  | n + 1 => ParserAdvanceN (ParserAdvance p).2 n

/-- Loop body of `ParserSkipWhitespace`; consumes exactly one character per
iteration, so the fuel is exactly the number of characters remaining. -/
def skipWSGo : Nat → Parser → Bool → Parser
  | 0, p, _ => p
  | n + 1, p, skipNewline =>
    if ParserAtEnd p then p
    else
      let c := ParserPeek p
      if c == ' ' || (skipNewline && c == '\n') then
        skipWSGo n (ParserAdvance p).2 skipNewline
      else p

/-- `ParserSkipWhitespace` from the source. -/
def ParserSkipWhitespace (p : Parser) (skipNewline : Bool) : Parser :=
  skipWSGo (p.text.length - p.pos) p skipNewline

/-- `ParserExpect` from the source; the missing-token diagnostic special-cases
the newline token. -/
def ParserExpect (p : Parser) (tok : List Char) : Except PErr Parser :=
  if StringStartsWith (p.text.drop p.pos) tok then
    .ok (ParserAdvanceN p tok.length)
  else if tok = ['\n'] then
    .error (.fatal p.line p.linePos .expectedNewline)
  else
    .error (.fatal p.line p.linePos (.expectedTok tok))

/-- `ParserCheck` from the source: word-boundary match that consumes the word
on success and leaves the parser untouched on failure. -/
def ParserCheck (p : Parser) (w : List Char) : Option Parser :=
  if StringStartsWithWord (p.text.drop p.pos) w then
    some (ParserAdvanceN p w.length)
  else
    none

/-- The numeric value of a decimal digit character, as a rational. -/
def digitVal (c : Char) : ℚ :=
  ((c.toNat - 48 : Nat) : ℚ)

/-- Integer-part loop of `ParserGetFloat`: `value = value*10 + digit`, with
`valid` recording that at least one digit was read.  One character per
iteration, so the fuel at the call site is exactly the characters remaining. -/
def intGo : Nat → Parser → ℚ → Bool → ℚ × Bool × Parser
  | 0, p, value, valid => (value, valid, p)
  | n + 1, p, value, valid =>
    if !ParserAtEnd p && IsNumber (ParserPeek p) then
      intGo n (ParserAdvance p).2 (value * 10 + digitVal (ParserPeek p)) true
    else (value, valid, p)

/-- Fractional-part loop of `ParserGetFloat`: `value += digit * mul` with a
multiplier shrinking from 1/10 by a factor of 10 each digit. -/
def fracGo : Nat → Parser → ℚ → ℚ → ℚ × Parser
  | 0, p, value, _ => (value, p)
  | n + 1, p, value, mul =>
    if !ParserAtEnd p && IsNumber (ParserPeek p) then
      fracGo n (ParserAdvance p).2 (value + digitVal (ParserPeek p) * mul) (mul * (1/10))
    else (value, p)

/-- The leading-minus check of `ParserGetFloat`. -/
def floatSign (p : Parser) : Bool × Parser :=
  if ParserPeek p == '-' then (true, (ParserAdvance p).2) else (false, p)

/-- The optional fractional part of `ParserGetFloat`: a `.` followed by
fraction digits accumulated onto `v`. -/
def floatFracPart (v : ℚ) (p : Parser) : ℚ × Parser :=
  if ParserPeek p == '.' then
    let pd := (ParserAdvance p).2
    fracGo (pd.text.length - pd.pos) pd v (1/10)
  else (v, p)

/-- `ParserGetFloat` from the source: optional leading `-`, mandatory integer
digits (else the fatal "expected number"), optional `.` plus fraction digits;
negation applied once at the end. -/
def ParserGetFloat (p : Parser) : Except PErr (ℚ × Parser) :=
  match floatSign p with
  | (neg, p1) =>
    match intGo (p1.text.length - p1.pos) p1 0 false with
    | (v1, valid, p2) =>
      if valid = false then
        .error (.fatal p2.line p2.linePos .expectedNumber)
      else
        match floatFracPart v1 p2 with
        | (v2, p3) => .ok ((if neg then -v2 else v2), p3)

/-- The `Vec2` struct from the source, over exact rationals. -/
structure Vec2 where
  x : ℚ
  y : ℚ
deriving DecidableEq, Repr

/-- `ParserGetVec2` from the source: float, whitespace, `,`, whitespace,
float. -/
def ParserGetVec2 (p : Parser) : Except PErr (Vec2 × Parser) :=
  match ParserGetFloat p with
  | .error e => .error e
  | .ok (x, p1) =>
    let p2 := ParserSkipWhitespace p1 false
    match ParserExpect p2 [','] with
    | .error e => .error e
    | .ok p3 =>
      let p4 := ParserSkipWhitespace p3 false
      match ParserGetFloat p4 with
      | .error e => .error e
      | .ok (y, p5) => .ok (⟨x, y⟩, p5)

/-- Scan loop of `ParserGetString`: copy raw bytes up to the closing quote; at
end of input emit the same "expected quote" diagnostic the source prints after
the loop.  One character per iteration. -/
def stringGo : Nat → Parser → List Char → Except PErr (List Char × Parser)
  | 0, p, _ => .error (.fatal p.line p.linePos (.expectedTok ['"']))
  | n + 1, p, acc =>
    if ParserAtEnd p then
      .error (.fatal p.line p.linePos (.expectedTok ['"']))
    else
      let c := ParserPeek p
      if c == '"' then .ok (acc.reverse, (ParserAdvance p).2)
      else stringGo n (ParserAdvance p).2 (c :: acc)

/-- `ParserGetString` from the source: expect the opening quote, then scan. -/
def ParserGetString (p : Parser) : Except PErr (List Char × Parser) :=
  match ParserExpect p ['"'] with
  | .error e => .error e
  | .ok p1 => stringGo (p1.text.length - p1.pos) p1 []

/-- `ParserAssignFloat` from the source: whitespace, `=`, whitespace, float,
trailing whitespace; the trailing `ParserExpect "\n"` is commented out in the
source and therefore absent here. -/
def ParserAssignFloat (p : Parser) : Except PErr (ℚ × Parser) :=
  let p1 := ParserSkipWhitespace p false
  match ParserExpect p1 ['='] with
  | .error e => .error e
  | .ok p2 =>
    let p3 := ParserSkipWhitespace p2 false
    match ParserGetFloat p3 with
    | .error e => .error e
    | .ok (f, p4) => .ok (f, ParserSkipWhitespace p4 false)

/-- `ParserAssignVec2` from the source; like `ParserAssignFloat`, the trailing
newline expectation is commented out in the source. -/
def ParserAssignVec2 (p : Parser) : Except PErr (Vec2 × Parser) :=
  let p1 := ParserSkipWhitespace p false
  match ParserExpect p1 ['='] with
  | .error e => .error e
  | .ok p2 =>
    let p3 := ParserSkipWhitespace p2 false
    match ParserGetVec2 p3 with
    | .error e => .error e
    | .ok (v, p4) => .ok (v, ParserSkipWhitespace p4 false)

/-- The `FrameData` struct from the source, dropping the OpenGL `quad` (an
external collaborator) and replacing the intrusive `next` pointer with the
ambient `List`; `source` is the filename handed to `NewFrameData` for texture
loading. -/
structure FrameData where
  source : List Char
  startTime : ℚ
  duration : ℚ
  fadeIn : ℚ
  fadeOut : ℚ
  position : Vec2
  size : Vec2
deriving DecidableEq, Repr

/-- `NewFrameData`/`CreateFrameData` from the source: an item for `filename` at
position (x, y) of size (w, h) with the default timing window. -/
def NewFrameData (filename : List Char) (x y w h : ℚ) : FrameData :=
  { source := filename
    startTime := 0
    duration := 5
    fadeIn := 1
    fadeOut := 1
    position := ⟨x, y⟩
    size := ⟨w, h⟩ }

/-- C float-to-int conversion: truncation toward zero. -/
def truncQ (q : ℚ) : ℤ :=
  if 0 ≤ q then ⌊q⌋ else -⌊-q⌋

/-- Decimal rendering of a C `int`, as used by the `sprintf` `%d` conversions
that build image paths. -/
def intChars (i : ℤ) : List Char :=
  (toString i).toList

/-- The interpreter state of `ParserGetImages`: the cursor plus the locals
(`screen`/`screenSet` fused into an `Option`, the two directory prefixes,
`loadStartTime`, `index`, the accumulated item list `cur`) and the global
`totalDuration`, which the source initialises to `1.0` at file scope. -/
structure PState where
  p : Parser
  screen : Option Vec2
  imageDir : List Char
  captionDir : List Char
  loadStartTime : ℤ
  index : ℤ
  totalDuration : ℚ
  items : List FrameData
deriving DecidableEq, Repr

/-- The `totalDuration` update `if (s + d > totalDuration) totalDuration = s + d`. -/
def bumpTotal (td sPlusD : ℚ) : ℚ :=
  if sPlusD > td then sPlusD else td

/-- Cursor-side reads of the `slide` directive: whitespace, quoted filename
(appended to the image directory prefix), whitespace, duration float. -/
def slideRead (dir : List Char) (p : Parser) : Except PErr (List Char × ℚ × Parser) :=
  let p1 := ParserSkipWhitespace p false
  match ParserGetString p1 with
  | .error e => .error e
  | .ok (name, p2) =>
    let p3 := ParserSkipWhitespace p2 false
    match ParserGetFloat p3 with
    | .error e => .error e
    | .ok (d, p4) => .ok (dir ++ name, d, p4)

/-- State update of the `slide` directive: one item at the default position
(1, 0) and size (4, 4) normalised by the screen, `duration` the parsed float
plus 2 truncated by the `int` declaration of `frameDuration`, and
`loadStartTime` advanced by `frameDuration + 1`. -/
def applySlide (st : PState) (scr : Vec2) (file : List Char) (d : ℚ) (p : Parser) : PState :=
  let frameDuration : ℤ := truncQ (d + 2)
  let startIncr : ℤ := frameDuration + 1
  let image : FrameData :=
    { NewFrameData file (1 / scr.x) (0 / scr.y) (4 / scr.x) (4 / scr.y) with
        startTime := (st.loadStartTime : ℚ)
        duration := (frameDuration : ℚ)
        fadeIn := 1
        fadeOut := 1 }
  { st with
      p := p
      totalDuration := bumpTotal st.totalDuration (image.startTime + image.duration)
      loadStartTime := st.loadStartTime + startIncr
      items := image :: st.items }

/-- Cursor-side reads of the compact `image` directive, in source order:
file number, size vector, image column/row, caption column/row. -/
def imageRead (p : Parser) :
    Except PErr (ℚ × Vec2 × ℚ × Char × ℚ × Char × Parser) :=
  let p1 := ParserSkipWhitespace p false
  match ParserGetFloat p1 with
  | .error e => .error e
  | .ok (fnum, p2) =>
    let p3 := ParserSkipWhitespace p2 false
    match ParserGetVec2 p3 with
    | .error e => .error e
    | .ok (sz, p4) =>
      let p5 := ParserSkipWhitespace p4 false
      match ParserGetFloat p5 with
      | .error e => .error e
      | .ok (px1, p6) =>
        match ParserNext p6 with
        | .error e => .error e
        | .ok (c1, p7) =>
          let p8 := ParserSkipWhitespace p7 false
          match ParserGetFloat p8 with
          | .error e => .error e
          | .ok (px2, p9) =>
            match ParserNext p9 with
            | .error e => .error e
            | .ok (c2, p10) => .ok (fnum, sz, px1, c1, px2, c2, p10)

/-- State update of the compact `image` directive: an image item (path
`{imageDir}{index}-{fileNum}.jpg`, or `{index}-last.jpg` when `fileNum` is 99)
and a caption item (1×1 raw size, path `{captionDir}{fileNum}-C.jpg` or
`Last-C.jpg`), both with `duration = 12`; grid coordinates are 1-based columns
and letter rows.  The caption is linked in front of the image, `totalDuration`
is bumped once with the image's window, and `loadStartTime` advances by 13. -/
def applyImage (st : PState) (scr : Vec2) (fnum : ℚ) (sz : Vec2)
    (px1 : ℚ) (c1 : Char) (px2 : ℚ) (c2 : Char) (p : Parser) : PState :=
  let frameDuration : ℤ := 12
  let startIncr : ℤ := frameDuration + 1
  let fileNum : ℤ := truncQ fnum
  let pos1 : Vec2 := ⟨((truncQ px1 - 1 : ℤ) : ℚ), (((c1.toNat : ℤ) - 97 : ℤ) : ℚ)⟩
  let imgFile : List Char :=
    if fileNum ≠ 99 then
      st.imageDir ++ intChars st.index ++ ['-'] ++ intChars fileNum ++ String.toList ".jpg"
    else
      st.imageDir ++ intChars st.index ++ String.toList "-last.jpg"
  let image : FrameData :=
    { NewFrameData imgFile (pos1.x / scr.x) (pos1.y / scr.y) (sz.x / scr.x) (sz.y / scr.y) with
        startTime := (st.loadStartTime : ℚ)
        duration := (frameDuration : ℚ)
        fadeIn := 1
        fadeOut := 1 }
  let pos2 : Vec2 := ⟨((truncQ px2 - 1 : ℤ) : ℚ), (((c2.toNat : ℤ) - 97 : ℤ) : ℚ)⟩
  let capFile : List Char :=
    if fileNum ≠ 99 then
      st.captionDir ++ intChars fileNum ++ String.toList "-C.jpg"
    else
      st.captionDir ++ String.toList "Last-C.jpg"
  let caption : FrameData :=
    { NewFrameData capFile (pos2.x / scr.x) (pos2.y / scr.y) (1 / scr.x) (1 / scr.y) with
        startTime := (st.loadStartTime : ℚ)
        duration := (frameDuration : ℚ)
        fadeIn := 1
        fadeOut := 1 }
  { st with
      p := p
      index := st.index + 1
      totalDuration := bumpTotal st.totalDuration (image.startTime + image.duration)
      loadStartTime := st.loadStartTime + startIncr
      items := caption :: image :: st.items }

/-- The property record of a `customimage` block, with the defaults the source
initialises before the property loop. -/
structure CProps where
  position : Vec2
  size : Vec2
  start : ℚ
  duration : ℚ
  fadeIn : ℚ
  fadeOut : ℚ
deriving DecidableEq, Repr

/-- Defaults for a `customimage` block: position and size zero, `start = 0`,
`duration = 5`, `fadeIn = fadeOut = 1`. -/
def defaultCProps : CProps :=
  ⟨⟨0, 0⟩, ⟨0, 0⟩, 0, 5, 1, 1⟩

/-- The `customimage` property loop: stop on `}`, otherwise skip whitespace and
dispatch on the property keyword, failing fatally on anything else.  Each
non-terminal iteration consumes at least the keyword, so `remaining + 1` fuel
suffices (proved in the C10 development). -/
def propGo : Nat → Parser → CProps → Except PErr (CProps × Parser)
  | 0, _, _ => .error .fuelOut
  | n + 1, p, pr =>
    match ParserCheck p ['}'] with
    | some p' => .ok (pr, p')
    | none =>
      let p1 := ParserSkipWhitespace p true
      match ParserCheck p1 (String.toList "position") with
      | some p2 =>
        match ParserAssignVec2 p2 with
        | .error e => .error e
        | .ok (v, p3) => propGo n p3 { pr with position := v }
      | none =>
      match ParserCheck p1 (String.toList "size") with
      | some p2 =>
        match ParserAssignVec2 p2 with
        | .error e => .error e
        | .ok (v, p3) => propGo n p3 { pr with size := v }
      | none =>
      match ParserCheck p1 (String.toList "start") with
      | some p2 =>
        match ParserAssignFloat p2 with
        | .error e => .error e
        | .ok (f, p3) => propGo n p3 { pr with start := f }
      | none =>
      match ParserCheck p1 (String.toList "duration") with
      | some p2 =>
        match ParserAssignFloat p2 with
        | .error e => .error e
        | .ok (f, p3) => propGo n p3 { pr with duration := f }
      | none =>
      match ParserCheck p1 (String.toList "fadeIn") with
      | some p2 =>
        match ParserAssignFloat p2 with
        | .error e => .error e
        | .ok (f, p3) => propGo n p3 { pr with fadeIn := f }
      | none =>
      match ParserCheck p1 (String.toList "fadeOut") with
      | some p2 =>
        match ParserAssignFloat p2 with
        | .error e => .error e
        | .ok (f, p3) => propGo n p3 { pr with fadeOut := f }
      | none =>
        .error (.fatal p1.line p1.linePos .unexpectedCharacter)

/-- Cursor-side reads of the `customimage` directive: quoted filename (not
prefixed by any directory), `{`, the property loop, and the mandatory newline
after the closing brace. -/
def customRead (p : Parser) : Except PErr (List Char × CProps × Parser) :=
  let p1 := ParserSkipWhitespace p false
  match ParserGetString p1 with
  | .error e => .error e
  | .ok (file, p2) =>
    let p3 := ParserSkipWhitespace p2 true
    match ParserExpect p3 ['{'] with
    | .error e => .error e
    | .ok p4 =>
      match propGo (p4.text.length - p4.pos + 1) p4 defaultCProps with
      | .error e => .error e
      | .ok (pr, p5) =>
        let p6 := ParserSkipWhitespace p5 false
        match ParserExpect p6 ['\n'] with
        | .error e => .error e
        | .ok p7 => .ok (file, pr, p7)

/-- State update of the `customimage` directive. -/
def applyCustom (st : PState) (scr : Vec2) (file : List Char) (pr : CProps)
    (p : Parser) : PState :=
  let info : FrameData :=
    { NewFrameData file (pr.position.x / scr.x) (pr.position.y / scr.y)
        (pr.size.x / scr.x) (pr.size.y / scr.y) with
        startTime := pr.start
        duration := pr.duration
        fadeIn := pr.fadeIn
        fadeOut := pr.fadeOut }
  { st with
      p := p
      totalDuration := bumpTotal st.totalDuration (pr.start + pr.duration)
      items := info :: st.items }

/-- The `screen` directive: fatal if the dimensions were already set, else read
the assigned vector. -/
def handleScreen (st : PState) (p' : Parser) : Except PErr PState :=
  match st.screen with
  | some _ => .error (.fatal p'.line p'.linePos .screenAlreadySet)
  | none =>
    match ParserAssignVec2 p' with
    | .error e => .error e
    | .ok (v, p2) => .ok { st with p := p2, screen := some v }

/-- The `imageDir` directive: whitespace, `=`, whitespace, quoted string
replacing the image directory prefix. -/
def handleImageDir (st : PState) (p' : Parser) : Except PErr PState :=
  let p1 := ParserSkipWhitespace p' false
  match ParserExpect p1 ['='] with
  | .error e => .error e
  | .ok p2 =>
    let p3 := ParserSkipWhitespace p2 false
    match ParserGetString p3 with
    | .error e => .error e
    | .ok (s, p4) => .ok { st with p := p4, imageDir := s }

/-- The `captionDir` directive. -/
def handleCaptionDir (st : PState) (p' : Parser) : Except PErr PState :=
  let p1 := ParserSkipWhitespace p' false
  match ParserExpect p1 ['='] with
  | .error e => .error e
  | .ok p2 =>
    let p3 := ParserSkipWhitespace p2 false
    match ParserGetString p3 with
    | .error e => .error e
    | .ok (s, p4) => .ok { st with p := p4, captionDir := s }

/-- The `slide` directive: fatal when the screen is not yet set (diagnosed at
the position just after the keyword), else read and apply. -/
def handleSlide (st : PState) (p' : Parser) : Except PErr PState :=
  match st.screen with
  | none => .error (.fatal p'.line p'.linePos .screenNotSet)
  | some scr =>
    match slideRead st.imageDir p' with
    | .error e => .error e
    | .ok (file, d, p2) => .ok (applySlide st scr file d p2)

/-- The compact `image` directive: fatal when the screen is not yet set, else
read and apply. -/
def handleImage (st : PState) (p' : Parser) : Except PErr PState :=
  match st.screen with
  | none => .error (.fatal p'.line p'.linePos .screenNotSet)
  | some scr =>
    match imageRead p' with
    | .error e => .error e
    | .ok (fnum, sz, px1, c1, px2, c2, p2) =>
      .ok (applyImage st scr fnum sz px1 c1 px2 c2 p2)

/-- The `customimage` directive: fatal when the screen is not yet set, else
read and apply. -/
def handleCustom (st : PState) (p' : Parser) : Except PErr PState :=
  match st.screen with
  | none => .error (.fatal p'.line p'.linePos .screenNotSet)
  | some scr =>
    match customRead p' with
    | .error e => .error e
    | .ok (file, pr, p2) => .ok (applyCustom st scr file pr p2)

/-- One iteration of the main loop of `ParserGetImages`: skip whitespace and
newlines, then try the directive keywords in source order; a character that
matches no keyword is consumed by the defensive `ParserNext` in the final
`else` without producing an item. -/
def dispatch (st : PState) : Except PErr PState :=
  let p := ParserSkipWhitespace st.p true
  match ParserCheck p (String.toList "screen") with
  | some p' => handleScreen st p'
  | none =>
  match ParserCheck p (String.toList "imageDir") with
  | some p' => handleImageDir st p'
  | none =>
  match ParserCheck p (String.toList "captionDir") with
  | some p' => handleCaptionDir st p'
  | none =>
  match ParserCheck p (String.toList "slide") with
  | some p' => handleSlide st p'
  | none =>
  match ParserCheck p (String.toList "image") with
  | some p' => handleImage st p'
  | none =>
  match ParserCheck p (String.toList "customimage") with
  | some p' => handleCustom st p'
  | none =>
    match ParserNext p with
    | .error e => .error e
    | .ok (_, p') => .ok { st with p := p' }

/-- The main loop of `ParserGetImages`: iterate `dispatch` until the cursor is
at the end; returns the item list and the final `totalDuration`. -/
def parseGo : Nat → PState → Except PErr (List FrameData × ℚ)
  | 0, _ => .error .fuelOut
  | n + 1, st =>
    if ParserAtEnd st.p then .ok (st.items, st.totalDuration)
    else
      match dispatch st with
      | .error e => .error e
      | .ok st' => parseGo n st'

/-- The initial interpreter state for a description text: fresh cursor, unset
screen, empty directory prefixes, `loadStartTime = 0`, `index = 1`, the
file-scope initial `totalDuration = 1.0`, and no items. -/
def initState (text : List Char) : PState :=
  { p := CreateParser text
    screen := none
    imageDir := []
    captionDir := []
    loadStartTime := 0
    index := 1
    totalDuration := 1
    items := [] }

/-- `ParserGetImages` applied to a whole description text (as `main` does after
`kuhl_text_read`), with the fuel bound `length + 2` that claim C10 proves
sufficient. -/
def parseFile (s : String) : Except PErr (List FrameData × ℚ) :=
  parseGo (s.toList.length + 2) (initState s.toList)

/-- The wrap-around loop of `display`: `while (frameTime > totalDuration)
frameTime -= totalDuration`, with an explicit iteration budget.  When
`totalDuration > 0` the budget below covers every iteration of the source
loop; when `totalDuration ≤ 0` the source loop would not terminate at all for
`frameTime > totalDuration`, a case the spec excludes by its proviso. -/
def wrapGo : Nat → ℚ → ℚ → ℚ
  | 0, ft, _ => ft
  | n + 1, ft, total => if total < ft then wrapGo n (ft - total) total else ft

/-- Number of subtractions the wrap loop can need, plus slack. -/
def wrapFuel (ft total : ℚ) : Nat :=
  (⌈ft / total⌉).toNat + 1

/-- The wrap-around reduction of `display`, with its budget filled in. -/
def wrapReduce (ft total : ℚ) : ℚ :=
  wrapGo (wrapFuel ft total) ft total

/-- The playback-clock globals of the source: `started` (set by the space-bar
trigger), `frameStart` (clock value at the trigger), `frameTime`,
`lastFrameTime` (initialised to a large sentinel so the first running tick
fires the music cue), and `totalDuration`. -/
structure ClockState where
  started : Bool
  frameStart : ℚ
  lastFrameTime : ℚ
  frameTime : ℚ
  totalDuration : ℚ
deriving DecidableEq, Repr

/-- One tick of `display` on the master node, given the external clock value
`now`: while started, recompute `frameTime`, wrap-reduce it, fire the one-shot
loop-wrap (music) event iff the wrapped time moved backwards past
`lastFrameTime`, and store the new `lastFrameTime`.  When not started nothing
changes and no event fires.  (The DGR state broadcast and the audio playback
are external collaborators; the returned `Bool` is the loop-wrap event.) -/
def displayTick (st : ClockState) (now : ℚ) : ClockState × Bool :=
  if st.started then
    let ft := wrapReduce (now - st.frameStart) st.totalDuration
    let event := decide (ft < st.lastFrameTime)
    ({ st with frameTime := ft, lastFrameTime := ft }, event)
  else
    (st, false)

/-- The alpha computation of `FrameDataDraw`: a pure function of the frame
time and the item's timing window (the draw itself is external). -/
def FrameDataAlpha (frameTime : ℚ) (self : FrameData) : ℚ :=
  if frameTime ≥ self.startTime then
    let curDuration := frameTime - self.startTime
    if curDuration < self.duration then
      if self.fadeIn > 0 ∧ curDuration < self.fadeIn then
        curDuration / self.fadeIn
      else if self.fadeOut > 0 ∧ self.duration - curDuration < self.fadeOut then
        (self.duration - curDuration) / self.fadeOut
      else
        1
    else 0
  else 0

/-- The alpha rule exactly as claim C1 words it, for comparison with
`FrameDataAlpha`. -/
def alphaSpecC1 (frameTime startTime duration fadeIn fadeOut : ℚ) : ℚ :=
  if frameTime < startTime then 0
  else
    let elapsed := frameTime - startTime
    if elapsed ≥ duration then 0
    else if fadeIn > 0 ∧ elapsed < fadeIn then elapsed / fadeIn
    else if fadeOut > 0 ∧ duration - elapsed < fadeOut then (duration - elapsed) / fadeOut
    else 1

/-- The loop duration exactly as claim C2 words it after amendment: the
incremental maximum of each item's `startTime + duration`, seeded with the
file-scope initial value `1.0` of `totalDuration`. -/
def specTotalOf (items : List FrameData) : ℚ :=
  items.foldr (fun it acc => max (it.startTime + it.duration) acc) 1

/-! ### Cursor bookkeeping lemmas

Text preservation and position monotonicity for every reader, plus the fact
that no reader ever reports fuel exhaustion (the two fuelled loops are given
enough budget at their call sites).  These feed the progress and termination
arguments of the interpreter. -/

@[simp] theorem ParserAdvance_text (p : Parser) : (ParserAdvance p).2.text = p.text := rfl

@[simp] theorem ParserAdvance_pos (p : Parser) : (ParserAdvance p).2.pos = p.pos + 1 := rfl

theorem ParserAdvanceN_text (n : Nat) (p : Parser) : (ParserAdvanceN p n).text = p.text := by
  induction n generalizing p with
  | zero => rfl
  | succ n ih => simpa [ParserAdvanceN] using ih (ParserAdvance p).2

theorem ParserAdvanceN_pos (n : Nat) (p : Parser) : (ParserAdvanceN p n).pos = p.pos + n := by
  induction n generalizing p with
  | zero => rfl
  | succ n ih =>
    have := ih (ParserAdvance p).2
    simp only [ParserAdvanceN, this, ParserAdvance_pos]
    omega

theorem skipWSGo_text (n : Nat) (p : Parser) (b : Bool) :
    (skipWSGo n p b).text = p.text := by
  induction n generalizing p with
  | zero => rfl
  | succ n ih =>
    simp only [skipWSGo]
    split
    · rfl
    · split
      · simpa using ih (ParserAdvance p).2
      · rfl

theorem skipWSGo_pos_le (n : Nat) (p : Parser) (b : Bool) :
    p.pos ≤ (skipWSGo n p b).pos := by
  induction n generalizing p with
  | zero => exact Nat.le_refl _
  | succ n ih =>
    simp only [skipWSGo]
    split
    · exact Nat.le_refl _
    · split
      · have := ih (ParserAdvance p).2
        simp only [ParserAdvance_pos] at this
        omega
      · exact Nat.le_refl _

theorem ParserSkipWhitespace_text (p : Parser) (b : Bool) :
    (ParserSkipWhitespace p b).text = p.text :=
  skipWSGo_text _ p b

theorem ParserSkipWhitespace_pos_le (p : Parser) (b : Bool) :
    p.pos ≤ (ParserSkipWhitespace p b).pos :=
  skipWSGo_pos_le _ p b

theorem ParserNext_ok (p : Parser) {c : Char} {p' : Parser}
    (h : ParserNext p = .ok (c, p')) : p'.text = p.text ∧ p'.pos = p.pos + 1 := by
  unfold ParserNext at h
  split at h
  · exact absurd h (by simp)
  · cases h; exact ⟨rfl, rfl⟩

theorem ParserNext_noFuel (p : Parser) : ParserNext p ≠ .error .fuelOut := by
  unfold ParserNext
  split <;> simp

theorem ParserExpect_ok (p : Parser) (tok : List Char) {p' : Parser}
    (h : ParserExpect p tok = .ok p') :
    p'.text = p.text ∧ p'.pos = p.pos + tok.length := by
  unfold ParserExpect at h
  split at h
  · cases h; exact ⟨ParserAdvanceN_text _ _, ParserAdvanceN_pos _ _⟩
  · split at h <;> exact absurd h (by simp)

theorem ParserExpect_noFuel (p : Parser) (tok : List Char) :
    ParserExpect p tok ≠ .error .fuelOut := by
  unfold ParserExpect
  split
  · simp
  · split <;> simp

theorem ParserCheck_some (p : Parser) (w : List Char) {p' : Parser}
    (h : ParserCheck p w = some p') :
    p'.text = p.text ∧ p'.pos = p.pos + w.length := by
  unfold ParserCheck at h
  split at h
  · cases h; exact ⟨ParserAdvanceN_text _ _, ParserAdvanceN_pos _ _⟩
  · exact absurd h (by simp)

theorem intGo_text (n : Nat) (p : Parser) (v : ℚ) (b : Bool) :
    (intGo n p v b).2.2.text = p.text := by
  induction n generalizing p v b with
  | zero => rfl
  | succ n ih =>
    simp only [intGo]
    split
    · simpa using ih (ParserAdvance p).2 _ _
    · rfl

theorem intGo_pos_le (n : Nat) (p : Parser) (v : ℚ) (b : Bool) :
    p.pos ≤ (intGo n p v b).2.2.pos := by
  induction n generalizing p v b with
  | zero => exact Nat.le_refl _
  | succ n ih =>
    simp only [intGo]
    split
    · have := ih (ParserAdvance p).2 (v * 10 + digitVal (ParserPeek p)) true
      simp only [ParserAdvance_pos] at this
      omega
    · exact Nat.le_refl _

theorem fracGo_text (n : Nat) (p : Parser) (v m : ℚ) :
    (fracGo n p v m).2.text = p.text := by
  induction n generalizing p v m with
  | zero => rfl
  | succ n ih =>
    simp only [fracGo]
    split
    · simpa using ih (ParserAdvance p).2 _ _
    · rfl

theorem fracGo_pos_le (n : Nat) (p : Parser) (v m : ℚ) :
    p.pos ≤ (fracGo n p v m).2.pos := by
  induction n generalizing p v m with
  | zero => exact Nat.le_refl _
  | succ n ih =>
    simp only [fracGo]
    split
    · have := ih (ParserAdvance p).2 (v + digitVal (ParserPeek p) * m) (m * (1/10))
      simp only [ParserAdvance_pos] at this
      omega
    · exact Nat.le_refl _

theorem floatSign_text (p : Parser) : (floatSign p).2.text = p.text := by
  unfold floatSign; split <;> rfl

theorem floatSign_pos_le (p : Parser) : p.pos ≤ (floatSign p).2.pos := by
  unfold floatSign; split <;> simp

theorem floatFracPart_text (v : ℚ) (p : Parser) : (floatFracPart v p).2.text = p.text := by
  unfold floatFracPart
  split
  · simpa using fracGo_text _ (ParserAdvance p).2 v (1/10)
  · rfl

theorem floatFracPart_pos_le (v : ℚ) (p : Parser) : p.pos ≤ (floatFracPart v p).2.pos := by
  unfold floatFracPart
  split
  · have := fracGo_pos_le (p.text.length - (p.pos + 1)) (ParserAdvance p).2 v (1/10)
    simp only [ParserAdvance_pos, ParserAdvance_text] at this ⊢
    omega
  · exact Nat.le_refl _

theorem ParserGetFloat_ok (p : Parser) {v : ℚ} {p' : Parser}
    (h : ParserGetFloat p = .ok (v, p')) : p'.text = p.text ∧ p.pos ≤ p'.pos := by
  rcases hsp : floatSign p with ⟨neg, p1⟩
  rcases hip : intGo (p1.text.length - p1.pos) p1 0 false with ⟨v1, valid, p2⟩
  rcases hfp : floatFracPart v1 p2 with ⟨v2, p3⟩
  simp only [ParserGetFloat, hsp, hip, hfp] at h
  split at h
  · exact absurd h (by simp)
  · cases h
    have t1 : p1.text = p.text := by
      have hh := floatSign_text p; rw [hsp] at hh; exact hh
    have l1 : p.pos ≤ p1.pos := by
      have hh := floatSign_pos_le p; rw [hsp] at hh; exact hh
    have t2 : p2.text = p1.text := by
      have hh := intGo_text (p1.text.length - p1.pos) p1 0 false; rw [hip] at hh; exact hh
    have l2 : p1.pos ≤ p2.pos := by
      have hh := intGo_pos_le (p1.text.length - p1.pos) p1 0 false; rw [hip] at hh; exact hh
    have t3 : p'.text = p2.text := by
      have hh := floatFracPart_text v1 p2; rw [hfp] at hh; exact hh
    have l3 : p2.pos ≤ p'.pos := by
      have hh := floatFracPart_pos_le v1 p2; rw [hfp] at hh; exact hh
    exact ⟨by rw [t3, t2, t1], by omega⟩

theorem ParserGetFloat_noFuel (p : Parser) : ParserGetFloat p ≠ .error .fuelOut := by
  rcases hsp : floatSign p with ⟨neg, p1⟩
  rcases hip : intGo (p1.text.length - p1.pos) p1 0 false with ⟨v1, valid, p2⟩
  rcases hfp : floatFracPart v1 p2 with ⟨v2, p3⟩
  simp only [ParserGetFloat, hsp, hip, hfp]
  split <;> simp

theorem ParserGetVec2_ok (p : Parser) {v : Vec2} {p' : Parser}
    (h : ParserGetVec2 p = .ok (v, p')) : p'.text = p.text ∧ p.pos ≤ p'.pos := by
  rcases hf1 : ParserGetFloat p with e | ⟨x, p1⟩
  · simp only [ParserGetVec2, hf1] at h
    exact Except.noConfusion h
  simp only [ParserGetVec2, hf1] at h
  rcases he : ParserExpect (ParserSkipWhitespace p1 false) [','] with e | p3
  · simp only [he] at h
    exact Except.noConfusion h
  simp only [he] at h
  rcases hf2 : ParserGetFloat (ParserSkipWhitespace p3 false) with e | ⟨y, p5⟩
  · simp only [hf2] at h
    exact Except.noConfusion h
  simp only [hf2] at h
  obtain ⟨-, hp⟩ := Prod.mk.injEq .. ▸ (Except.ok.inj h)
  subst hp
  obtain ⟨tA, lA⟩ := ParserGetFloat_ok p hf1
  obtain ⟨tB, lB⟩ := ParserExpect_ok _ _ he
  obtain ⟨tC, lC⟩ := ParserGetFloat_ok _ hf2
  have tS1 := ParserSkipWhitespace_text p1 false
  have lS1 := ParserSkipWhitespace_pos_le p1 false
  have tS2 := ParserSkipWhitespace_text p3 false
  have lS2 := ParserSkipWhitespace_pos_le p3 false
  exact ⟨by rw [tC, tS2, tB, tS1, tA], by omega⟩

theorem ParserGetVec2_noFuel (p : Parser) : ParserGetVec2 p ≠ .error .fuelOut := by
  intro h
  rcases hf1 : ParserGetFloat p with e | ⟨x, p1⟩
  · simp only [ParserGetVec2, hf1] at h
    rw [Except.error.inj h] at hf1
    exact ParserGetFloat_noFuel p hf1
  simp only [ParserGetVec2, hf1] at h
  rcases he : ParserExpect (ParserSkipWhitespace p1 false) [','] with e | p3
  · simp only [he] at h
    rw [Except.error.inj h] at he
    exact ParserExpect_noFuel _ _ he
  simp only [he] at h
  rcases hf2 : ParserGetFloat (ParserSkipWhitespace p3 false) with e | ⟨y, p5⟩
  · simp only [hf2] at h
    rw [Except.error.inj h] at hf2
    exact ParserGetFloat_noFuel _ hf2
  simp only [hf2] at h
  exact Except.noConfusion h

theorem stringGo_ok (n : Nat) (p : Parser) (acc : List Char) {s : List Char} {p' : Parser}
    (h : stringGo n p acc = .ok (s, p')) : p'.text = p.text ∧ p.pos ≤ p'.pos := by
  induction n generalizing p acc with
  | zero => exact absurd h (by simp [stringGo])
  | succ n ih =>
    simp only [stringGo] at h
    split at h
    · exact absurd h (by simp)
    · split at h
      · obtain ⟨-, hp⟩ := Prod.mk.injEq .. ▸ (Except.ok.inj h)
        subst hp
        simp
      · obtain ⟨t, l⟩ := ih (ParserAdvance p).2 _ h
        simp only [ParserAdvance_text, ParserAdvance_pos] at t l
        exact ⟨t, by omega⟩

theorem stringGo_noFuel (n : Nat) (p : Parser) (acc : List Char) :
    stringGo n p acc ≠ .error .fuelOut := by
  induction n generalizing p acc with
  | zero => simp [stringGo]
  | succ n ih =>
    simp only [stringGo]
    split
    · simp
    · split
      · simp
      · exact ih (ParserAdvance p).2 _

theorem ParserGetString_ok (p : Parser) {s : List Char} {p' : Parser}
    (h : ParserGetString p = .ok (s, p')) : p'.text = p.text ∧ p.pos ≤ p'.pos := by
  rcases he : ParserExpect p ['"'] with e | p1
  · simp only [ParserGetString, he] at h
    exact Except.noConfusion h
  simp only [ParserGetString, he] at h
  obtain ⟨tA, lA⟩ := ParserExpect_ok _ _ he
  obtain ⟨tB, lB⟩ := stringGo_ok _ _ _ h
  exact ⟨by rw [tB, tA], by omega⟩

theorem ParserGetString_noFuel (p : Parser) : ParserGetString p ≠ .error .fuelOut := by
  intro h
  rcases he : ParserExpect p ['"'] with e | p1
  · simp only [ParserGetString, he] at h
    rw [Except.error.inj h] at he
    exact ParserExpect_noFuel _ _ he
  simp only [ParserGetString, he] at h
  exact stringGo_noFuel _ _ _ h

theorem ParserAssignFloat_ok (p : Parser) {f : ℚ} {p' : Parser}
    (h : ParserAssignFloat p = .ok (f, p')) : p'.text = p.text ∧ p.pos ≤ p'.pos := by
  rcases he : ParserExpect (ParserSkipWhitespace p false) ['='] with e | p2
  · simp only [ParserAssignFloat, he] at h
    exact Except.noConfusion h
  simp only [ParserAssignFloat, he] at h
  rcases hf : ParserGetFloat (ParserSkipWhitespace p2 false) with e | ⟨g, p4⟩
  · simp only [hf] at h
    exact Except.noConfusion h
  simp only [hf] at h
  obtain ⟨-, hp⟩ := Prod.mk.injEq .. ▸ (Except.ok.inj h)
  subst hp
  obtain ⟨tA, lA⟩ := ParserExpect_ok _ _ he
  obtain ⟨tB, lB⟩ := ParserGetFloat_ok _ hf
  have tS1 := ParserSkipWhitespace_text p false
  have lS1 := ParserSkipWhitespace_pos_le p false
  have tS2 := ParserSkipWhitespace_text p2 false
  have lS2 := ParserSkipWhitespace_pos_le p2 false
  have tS3 := ParserSkipWhitespace_text p4 false
  have lS3 := ParserSkipWhitespace_pos_le p4 false
  exact ⟨by rw [tS3, tB, tS2, tA, tS1], by omega⟩

theorem ParserAssignFloat_noFuel (p : Parser) : ParserAssignFloat p ≠ .error .fuelOut := by
  intro h
  rcases he : ParserExpect (ParserSkipWhitespace p false) ['='] with e | p2
  · simp only [ParserAssignFloat, he] at h
    rw [Except.error.inj h] at he
    exact ParserExpect_noFuel _ _ he
  simp only [ParserAssignFloat, he] at h
  rcases hf : ParserGetFloat (ParserSkipWhitespace p2 false) with e | ⟨g, p4⟩
  · simp only [hf] at h
    rw [Except.error.inj h] at hf
    exact ParserGetFloat_noFuel _ hf
  simp only [hf] at h
  exact Except.noConfusion h

theorem ParserAssignVec2_ok (p : Parser) {v : Vec2} {p' : Parser}
    (h : ParserAssignVec2 p = .ok (v, p')) : p'.text = p.text ∧ p.pos ≤ p'.pos := by
  rcases he : ParserExpect (ParserSkipWhitespace p false) ['='] with e | p2
  · simp only [ParserAssignVec2, he] at h
    exact Except.noConfusion h
  simp only [ParserAssignVec2, he] at h
  rcases hv : ParserGetVec2 (ParserSkipWhitespace p2 false) with e | ⟨w, p4⟩
  · simp only [hv] at h
    exact Except.noConfusion h
  simp only [hv] at h
  obtain ⟨-, hp⟩ := Prod.mk.injEq .. ▸ (Except.ok.inj h)
  subst hp
  obtain ⟨tA, lA⟩ := ParserExpect_ok _ _ he
  obtain ⟨tB, lB⟩ := ParserGetVec2_ok _ hv
  have tS1 := ParserSkipWhitespace_text p false
  have lS1 := ParserSkipWhitespace_pos_le p false
  have tS2 := ParserSkipWhitespace_text p2 false
  have lS2 := ParserSkipWhitespace_pos_le p2 false
  have tS3 := ParserSkipWhitespace_text p4 false
  have lS3 := ParserSkipWhitespace_pos_le p4 false
  exact ⟨by rw [tS3, tB, tS2, tA, tS1], by omega⟩

theorem ParserAssignVec2_noFuel (p : Parser) : ParserAssignVec2 p ≠ .error .fuelOut := by
  intro h
  rcases he : ParserExpect (ParserSkipWhitespace p false) ['='] with e | p2
  · simp only [ParserAssignVec2, he] at h
    rw [Except.error.inj h] at he
    exact ParserExpect_noFuel _ _ he
  simp only [ParserAssignVec2, he] at h
  rcases hv : ParserGetVec2 (ParserSkipWhitespace p2 false) with e | ⟨w, p4⟩
  · simp only [hv] at h
    rw [Except.error.inj h] at hv
    exact ParserGetVec2_noFuel _ hv
  simp only [hv] at h
  exact Except.noConfusion h

theorem StringStartsWith_ne_nil {s w : List Char}
    (h : StringStartsWith s w = true) (hw : w ≠ []) : s ≠ [] := by
  cases w with
  | nil => exact absurd rfl hw
  | cons c cs =>
    cases s with
    | nil => exact absurd h (by simp [StringStartsWith])
    | cons d ds => simp

/-- A successful word match needs at least one character of input, so the
cursor was strictly inside the text. -/
theorem ParserCheck_some_lt (p : Parser) (w : List Char) {p' : Parser}
    (hw : w ≠ []) (h : ParserCheck p w = some p') : p.pos < p.text.length := by
  unfold ParserCheck at h
  split at h
  · next hssw =>
    unfold StringStartsWithWord at hssw
    have hss : StringStartsWith (p.text.drop p.pos) w = true := by
      rcases Bool.and_eq_true .. ▸ hssw with ⟨h1, -⟩
      exact h1
    have hne := StringStartsWith_ne_nil hss hw
    by_contra hle
    exact hne (List.drop_eq_nil_iff.2 (by omega))
  · exact absurd h (by simp)

/-- Combined bookkeeping for the `customimage` property loop: on success the
text is unchanged and the position advanced, and with a budget exceeding the
number of remaining characters the loop never reports fuel exhaustion (each
iteration consumes at least its property keyword). -/
theorem propGo_props (n : Nat) (p : Parser) (pr : CProps) :
    (∀ {res : CProps × Parser}, propGo n p pr = .ok res →
        res.2.text = p.text ∧ p.pos ≤ res.2.pos)
    ∧ (p.text.length - p.pos < n → propGo n p pr ≠ .error .fuelOut) := by
  induction n generalizing p pr with
  | zero =>
    refine ⟨fun h => absurd h (by simp [propGo]), fun hm => absurd hm (by omega)⟩
  | succ n ih =>
    simp only [propGo]
    rcases hc0 : ParserCheck p ['}'] with _ | p0
    case some =>
      dsimp only
      obtain ⟨tB, lB⟩ := ParserCheck_some _ _ hc0
      refine ⟨fun h => ?_, fun _ => by simp⟩
      cases h
      refine ⟨tB, ?_⟩
      show p.pos ≤ p0.pos
      omega
    dsimp only
    have tS : (ParserSkipWhitespace p true).text = p.text := ParserSkipWhitespace_text p true
    have lS : p.pos ≤ (ParserSkipWhitespace p true).pos := ParserSkipWhitespace_pos_le p true
    rcases hc1 : ParserCheck (ParserSkipWhitespace p true) (String.toList "position") with _ | p2
    case some =>
      dsimp only
      obtain ⟨tC, lC⟩ := ParserCheck_some _ _ hc1
      have hk : 0 < (String.toList "position").length := by decide
      have hlt := ParserCheck_some_lt _ _ (by decide) hc1
      rw [tS] at hlt
      rcases ha : ParserAssignVec2 p2 with e | ⟨vv, p3⟩
      · refine ⟨fun h => Except.noConfusion h, fun _ h => ?_⟩
        rw [Except.error.inj h] at ha
        exact ParserAssignVec2_noFuel _ ha
      obtain ⟨tD, lD⟩ := ParserAssignVec2_ok _ ha
      refine ⟨fun h => ?_, fun hm => ?_⟩
      · obtain ⟨t, l⟩ := (ih p3 _).1 h
        exact ⟨by rw [t, tD, tC, tS], by omega⟩
      · refine (ih p3 _).2 ?_
        rw [tD, tC, tS]
        omega
    dsimp only
    rcases hc2 : ParserCheck (ParserSkipWhitespace p true) (String.toList "size") with _ | p2
    case some =>
      dsimp only
      obtain ⟨tC, lC⟩ := ParserCheck_some _ _ hc2
      have hk : 0 < (String.toList "size").length := by decide
      have hlt := ParserCheck_some_lt _ _ (by decide) hc2
      rw [tS] at hlt
      rcases ha : ParserAssignVec2 p2 with e | ⟨vv, p3⟩
      · refine ⟨fun h => Except.noConfusion h, fun _ h => ?_⟩
        rw [Except.error.inj h] at ha
        exact ParserAssignVec2_noFuel _ ha
      obtain ⟨tD, lD⟩ := ParserAssignVec2_ok _ ha
      refine ⟨fun h => ?_, fun hm => ?_⟩
      · obtain ⟨t, l⟩ := (ih p3 _).1 h
        exact ⟨by rw [t, tD, tC, tS], by omega⟩
      · refine (ih p3 _).2 ?_
        rw [tD, tC, tS]
        omega
    dsimp only
    rcases hc3 : ParserCheck (ParserSkipWhitespace p true) (String.toList "start") with _ | p2
    case some =>
      dsimp only
      obtain ⟨tC, lC⟩ := ParserCheck_some _ _ hc3
      have hk : 0 < (String.toList "start").length := by decide
      have hlt := ParserCheck_some_lt _ _ (by decide) hc3
      rw [tS] at hlt
      rcases ha : ParserAssignFloat p2 with e | ⟨ff, p3⟩
      · refine ⟨fun h => Except.noConfusion h, fun _ h => ?_⟩
        rw [Except.error.inj h] at ha
        exact ParserAssignFloat_noFuel _ ha
      obtain ⟨tD, lD⟩ := ParserAssignFloat_ok _ ha
      refine ⟨fun h => ?_, fun hm => ?_⟩
      · obtain ⟨t, l⟩ := (ih p3 _).1 h
        exact ⟨by rw [t, tD, tC, tS], by omega⟩
      · refine (ih p3 _).2 ?_
        rw [tD, tC, tS]
        omega
    dsimp only
    rcases hc4 : ParserCheck (ParserSkipWhitespace p true) (String.toList "duration") with _ | p2
    case some =>
      dsimp only
      obtain ⟨tC, lC⟩ := ParserCheck_some _ _ hc4
      have hk : 0 < (String.toList "duration").length := by decide
      have hlt := ParserCheck_some_lt _ _ (by decide) hc4
      rw [tS] at hlt
      rcases ha : ParserAssignFloat p2 with e | ⟨ff, p3⟩
      · refine ⟨fun h => Except.noConfusion h, fun _ h => ?_⟩
        rw [Except.error.inj h] at ha
        exact ParserAssignFloat_noFuel _ ha
      obtain ⟨tD, lD⟩ := ParserAssignFloat_ok _ ha
      refine ⟨fun h => ?_, fun hm => ?_⟩
      · obtain ⟨t, l⟩ := (ih p3 _).1 h
        exact ⟨by rw [t, tD, tC, tS], by omega⟩
      · refine (ih p3 _).2 ?_
        rw [tD, tC, tS]
        omega
    dsimp only
    rcases hc5 : ParserCheck (ParserSkipWhitespace p true) (String.toList "fadeIn") with _ | p2
    case some =>
      dsimp only
      obtain ⟨tC, lC⟩ := ParserCheck_some _ _ hc5
      have hk : 0 < (String.toList "fadeIn").length := by decide
      have hlt := ParserCheck_some_lt _ _ (by decide) hc5
      rw [tS] at hlt
      rcases ha : ParserAssignFloat p2 with e | ⟨ff, p3⟩
      · refine ⟨fun h => Except.noConfusion h, fun _ h => ?_⟩
        rw [Except.error.inj h] at ha
        exact ParserAssignFloat_noFuel _ ha
      obtain ⟨tD, lD⟩ := ParserAssignFloat_ok _ ha
      refine ⟨fun h => ?_, fun hm => ?_⟩
      · obtain ⟨t, l⟩ := (ih p3 _).1 h
        exact ⟨by rw [t, tD, tC, tS], by omega⟩
      · refine (ih p3 _).2 ?_
        rw [tD, tC, tS]
        omega
    dsimp only
    rcases hc6 : ParserCheck (ParserSkipWhitespace p true) (String.toList "fadeOut") with _ | p2
    case some =>
      dsimp only
      obtain ⟨tC, lC⟩ := ParserCheck_some _ _ hc6
      have hk : 0 < (String.toList "fadeOut").length := by decide
      have hlt := ParserCheck_some_lt _ _ (by decide) hc6
      rw [tS] at hlt
      rcases ha : ParserAssignFloat p2 with e | ⟨ff, p3⟩
      · refine ⟨fun h => Except.noConfusion h, fun _ h => ?_⟩
        rw [Except.error.inj h] at ha
        exact ParserAssignFloat_noFuel _ ha
      obtain ⟨tD, lD⟩ := ParserAssignFloat_ok _ ha
      refine ⟨fun h => ?_, fun hm => ?_⟩
      · obtain ⟨t, l⟩ := (ih p3 _).1 h
        exact ⟨by rw [t, tD, tC, tS], by omega⟩
      · refine (ih p3 _).2 ?_
        rw [tD, tC, tS]
        omega
    dsimp only
    exact ⟨fun h => Except.noConfusion h, fun _ => by simp⟩

theorem slideRead_ok (dir : List Char) (p : Parser) {file : List Char} {d : ℚ} {p' : Parser}
    (h : slideRead dir p = .ok (file, d, p')) : p'.text = p.text ∧ p.pos ≤ p'.pos := by
  rcases hs : ParserGetString (ParserSkipWhitespace p false) with e | ⟨name, p2⟩
  · simp only [slideRead, hs] at h
    exact Except.noConfusion h
  simp only [slideRead, hs] at h
  rcases hf : ParserGetFloat (ParserSkipWhitespace p2 false) with e | ⟨g, p4⟩
  · simp only [hf] at h
    exact Except.noConfusion h
  simp only [hf] at h
  simp only [Except.ok.injEq, Prod.mk.injEq] at h
  obtain ⟨-, -, hp⟩ := h
  subst hp
  obtain ⟨tA, lA⟩ := ParserGetString_ok _ hs
  obtain ⟨tB, lB⟩ := ParserGetFloat_ok _ hf
  have tS1 := ParserSkipWhitespace_text p false
  have lS1 := ParserSkipWhitespace_pos_le p false
  have tS2 := ParserSkipWhitespace_text p2 false
  have lS2 := ParserSkipWhitespace_pos_le p2 false
  exact ⟨by rw [tB, tS2, tA, tS1], by omega⟩

theorem slideRead_noFuel (dir : List Char) (p : Parser) :
    slideRead dir p ≠ .error .fuelOut := by
  intro h
  rcases hs : ParserGetString (ParserSkipWhitespace p false) with e | ⟨name, p2⟩
  · simp only [slideRead, hs] at h
    rw [Except.error.inj h] at hs
    exact ParserGetString_noFuel _ hs
  simp only [slideRead, hs] at h
  rcases hf : ParserGetFloat (ParserSkipWhitespace p2 false) with e | ⟨g, p4⟩
  · simp only [hf] at h
    rw [Except.error.inj h] at hf
    exact ParserGetFloat_noFuel _ hf
  simp only [hf] at h
  exact Except.noConfusion h

theorem imageRead_ok (p : Parser)
    {fnum : ℚ} {sz : Vec2} {px1 : ℚ} {c1 : Char} {px2 : ℚ} {c2 : Char} {p' : Parser}
    (h : imageRead p = .ok (fnum, sz, px1, c1, px2, c2, p')) :
    p'.text = p.text ∧ p.pos ≤ p'.pos := by
  rcases hf1 : ParserGetFloat (ParserSkipWhitespace p false) with e | ⟨a1, p2⟩
  · simp only [imageRead, hf1] at h
    exact Except.noConfusion h
  simp only [imageRead, hf1] at h
  rcases hv : ParserGetVec2 (ParserSkipWhitespace p2 false) with e | ⟨w, p4⟩
  · simp only [hv] at h
    exact Except.noConfusion h
  simp only [hv] at h
  rcases hf2 : ParserGetFloat (ParserSkipWhitespace p4 false) with e | ⟨a2, p6⟩
  · simp only [hf2] at h
    exact Except.noConfusion h
  simp only [hf2] at h
  rcases hn1 : ParserNext p6 with e | ⟨b1, p7⟩
  · simp only [hn1] at h
    exact Except.noConfusion h
  simp only [hn1] at h
  rcases hf3 : ParserGetFloat (ParserSkipWhitespace p7 false) with e | ⟨a3, p9⟩
  · simp only [hf3] at h
    exact Except.noConfusion h
  simp only [hf3] at h
  rcases hn2 : ParserNext p9 with e | ⟨b2, p10⟩
  · simp only [hn2] at h
    exact Except.noConfusion h
  simp only [hn2] at h
  simp only [Except.ok.injEq, Prod.mk.injEq] at h
  obtain ⟨-, -, -, -, -, -, hp⟩ := h
  subst hp
  obtain ⟨tA, lA⟩ := ParserGetFloat_ok _ hf1
  obtain ⟨tB, lB⟩ := ParserGetVec2_ok _ hv
  obtain ⟨tC, lC⟩ := ParserGetFloat_ok _ hf2
  obtain ⟨tD, lD⟩ := ParserNext_ok _ hn1
  obtain ⟨tE, lE⟩ := ParserGetFloat_ok _ hf3
  obtain ⟨tF, lF⟩ := ParserNext_ok _ hn2
  have tS1 := ParserSkipWhitespace_text p false
  have lS1 := ParserSkipWhitespace_pos_le p false
  have tS2 := ParserSkipWhitespace_text p2 false
  have lS2 := ParserSkipWhitespace_pos_le p2 false
  have tS3 := ParserSkipWhitespace_text p4 false
  have lS3 := ParserSkipWhitespace_pos_le p4 false
  have tS4 := ParserSkipWhitespace_text p7 false
  have lS4 := ParserSkipWhitespace_pos_le p7 false
  exact ⟨by rw [tF, tE, tS4, tD, tC, tS3, tB, tS2, tA, tS1], by omega⟩

theorem imageRead_noFuel (p : Parser) : imageRead p ≠ .error .fuelOut := by
  intro h
  rcases hf1 : ParserGetFloat (ParserSkipWhitespace p false) with e | ⟨a1, p2⟩
  · simp only [imageRead, hf1] at h
    rw [Except.error.inj h] at hf1
    exact ParserGetFloat_noFuel _ hf1
  simp only [imageRead, hf1] at h
  rcases hv : ParserGetVec2 (ParserSkipWhitespace p2 false) with e | ⟨w, p4⟩
  · simp only [hv] at h
    rw [Except.error.inj h] at hv
    exact ParserGetVec2_noFuel _ hv
  simp only [hv] at h
  rcases hf2 : ParserGetFloat (ParserSkipWhitespace p4 false) with e | ⟨a2, p6⟩
  · simp only [hf2] at h
    rw [Except.error.inj h] at hf2
    exact ParserGetFloat_noFuel _ hf2
  simp only [hf2] at h
  rcases hn1 : ParserNext p6 with e | ⟨b1, p7⟩
  · simp only [hn1] at h
    rw [Except.error.inj h] at hn1
    exact ParserNext_noFuel _ hn1
  simp only [hn1] at h
  rcases hf3 : ParserGetFloat (ParserSkipWhitespace p7 false) with e | ⟨a3, p9⟩
  · simp only [hf3] at h
    rw [Except.error.inj h] at hf3
    exact ParserGetFloat_noFuel _ hf3
  simp only [hf3] at h
  rcases hn2 : ParserNext p9 with e | ⟨b2, p10⟩
  · simp only [hn2] at h
    rw [Except.error.inj h] at hn2
    exact ParserNext_noFuel _ hn2
  simp only [hn2] at h
  exact Except.noConfusion h

theorem customRead_ok (p : Parser) {file : List Char} {pr : CProps} {p' : Parser}
    (h : customRead p = .ok (file, pr, p')) : p'.text = p.text ∧ p.pos ≤ p'.pos := by
  rcases hs : ParserGetString (ParserSkipWhitespace p false) with e | ⟨name, p2⟩
  · simp only [customRead, hs] at h
    exact Except.noConfusion h
  simp only [customRead, hs] at h
  rcases he : ParserExpect (ParserSkipWhitespace p2 true) ['{'] with e | p4
  · simp only [he] at h
    exact Except.noConfusion h
  simp only [he] at h
  rcases hg : propGo (p4.text.length - p4.pos + 1) p4 defaultCProps with e | ⟨pr5, p5⟩
  · simp only [hg] at h
    exact Except.noConfusion h
  simp only [hg] at h
  rcases hn : ParserExpect (ParserSkipWhitespace p5 false) ['\n'] with e | p7
  · simp only [hn] at h
    exact Except.noConfusion h
  simp only [hn] at h
  simp only [Except.ok.injEq, Prod.mk.injEq] at h
  obtain ⟨-, -, hp⟩ := h
  subst hp
  obtain ⟨tA, lA⟩ := ParserGetString_ok _ hs
  obtain ⟨tB, lB⟩ := ParserExpect_ok _ _ he
  obtain ⟨tC, lC⟩ := (propGo_props (p4.text.length - p4.pos + 1) p4 defaultCProps).1 hg
  dsimp only at tC lC
  obtain ⟨tD, lD⟩ := ParserExpect_ok _ _ hn
  have tS1 := ParserSkipWhitespace_text p false
  have lS1 := ParserSkipWhitespace_pos_le p false
  have tS2 := ParserSkipWhitespace_text p2 true
  have lS2 := ParserSkipWhitespace_pos_le p2 true
  have tS3 := ParserSkipWhitespace_text p5 false
  have lS3 := ParserSkipWhitespace_pos_le p5 false
  exact ⟨by rw [tD, tS3, tC, tB, tS2, tA, tS1], by omega⟩

theorem customRead_noFuel (p : Parser) : customRead p ≠ .error .fuelOut := by
  intro h
  rcases hs : ParserGetString (ParserSkipWhitespace p false) with e | ⟨name, p2⟩
  · simp only [customRead, hs] at h
    rw [Except.error.inj h] at hs
    exact ParserGetString_noFuel _ hs
  simp only [customRead, hs] at h
  rcases he : ParserExpect (ParserSkipWhitespace p2 true) ['{'] with e | p4
  · simp only [he] at h
    rw [Except.error.inj h] at he
    exact ParserExpect_noFuel _ _ he
  simp only [he] at h
  rcases hg : propGo (p4.text.length - p4.pos + 1) p4 defaultCProps with e | ⟨pr5, p5⟩
  · simp only [hg] at h
    rw [Except.error.inj h] at hg
    exact (propGo_props (p4.text.length - p4.pos + 1) p4 defaultCProps).2 (by omega) hg
  simp only [hg] at h
  rcases hn : ParserExpect (ParserSkipWhitespace p5 false) ['\n'] with e | p7
  · simp only [hn] at h
    rw [Except.error.inj h] at hn
    exact ParserExpect_noFuel _ _ hn
  simp only [hn] at h
  exact Except.noConfusion h

/-! ### Handler lemmas: cursor progress, item and total-duration bookkeeping -/

theorem handleScreen_ok (st : PState) (p' : Parser) {st' : PState}
    (h : handleScreen st p' = .ok st') :
    (st'.p.text = p'.text ∧ p'.pos ≤ st'.p.pos) ∧
      st'.items = st.items ∧ st'.totalDuration = st.totalDuration := by
  rcases hscr : st.screen with _ | scr
  case some =>
    simp only [handleScreen, hscr] at h
    exact Except.noConfusion h
  simp only [handleScreen, hscr] at h
  rcases ha : ParserAssignVec2 p' with e | ⟨v, p2⟩
  · simp only [ha] at h
    exact Except.noConfusion h
  simp only [ha] at h
  obtain rfl := Except.ok.inj h
  exact ⟨ParserAssignVec2_ok _ ha, rfl, rfl⟩

theorem handleScreen_noFuel (st : PState) (p' : Parser) :
    handleScreen st p' ≠ .error .fuelOut := by
  intro h
  rcases hscr : st.screen with _ | scr
  case some =>
    simp only [handleScreen, hscr] at h
    exact absurd (Except.error.inj h) (by simp)
  simp only [handleScreen, hscr] at h
  rcases ha : ParserAssignVec2 p' with e | ⟨v, p2⟩
  · simp only [ha] at h
    rw [Except.error.inj h] at ha
    exact ParserAssignVec2_noFuel _ ha
  simp only [ha] at h
  exact Except.noConfusion h

theorem handleImageDir_ok (st : PState) (p' : Parser) {st' : PState}
    (h : handleImageDir st p' = .ok st') :
    (st'.p.text = p'.text ∧ p'.pos ≤ st'.p.pos) ∧
      st'.items = st.items ∧ st'.totalDuration = st.totalDuration := by
  rcases he : ParserExpect (ParserSkipWhitespace p' false) ['='] with e | p2
  · simp only [handleImageDir, he] at h
    exact Except.noConfusion h
  simp only [handleImageDir, he] at h
  rcases hs : ParserGetString (ParserSkipWhitespace p2 false) with e | ⟨s, p4⟩
  · simp only [hs] at h
    exact Except.noConfusion h
  simp only [hs] at h
  obtain rfl := Except.ok.inj h
  obtain ⟨tA, lA⟩ := ParserExpect_ok _ _ he
  obtain ⟨tB, lB⟩ := ParserGetString_ok _ hs
  have tS1 := ParserSkipWhitespace_text p' false
  have lS1 := ParserSkipWhitespace_pos_le p' false
  have tS2 := ParserSkipWhitespace_text p2 false
  have lS2 := ParserSkipWhitespace_pos_le p2 false
  refine ⟨⟨?_, ?_⟩, rfl, rfl⟩
  · show p4.text = p'.text
    rw [tB, tS2, tA, tS1]
  · show p'.pos ≤ p4.pos
    omega

theorem handleImageDir_noFuel (st : PState) (p' : Parser) :
    handleImageDir st p' ≠ .error .fuelOut := by
  intro h
  rcases he : ParserExpect (ParserSkipWhitespace p' false) ['='] with e | p2
  · simp only [handleImageDir, he] at h
    rw [Except.error.inj h] at he
    exact ParserExpect_noFuel _ _ he
  simp only [handleImageDir, he] at h
  rcases hs : ParserGetString (ParserSkipWhitespace p2 false) with e | ⟨s, p4⟩
  · simp only [hs] at h
    rw [Except.error.inj h] at hs
    exact ParserGetString_noFuel _ hs
  simp only [hs] at h
  exact Except.noConfusion h

theorem handleCaptionDir_ok (st : PState) (p' : Parser) {st' : PState}
    (h : handleCaptionDir st p' = .ok st') :
    (st'.p.text = p'.text ∧ p'.pos ≤ st'.p.pos) ∧
      st'.items = st.items ∧ st'.totalDuration = st.totalDuration := by
  rcases he : ParserExpect (ParserSkipWhitespace p' false) ['='] with e | p2
  · simp only [handleCaptionDir, he] at h
    exact Except.noConfusion h
  simp only [handleCaptionDir, he] at h
  rcases hs : ParserGetString (ParserSkipWhitespace p2 false) with e | ⟨s, p4⟩
  · simp only [hs] at h
    exact Except.noConfusion h
  simp only [hs] at h
  obtain rfl := Except.ok.inj h
  obtain ⟨tA, lA⟩ := ParserExpect_ok _ _ he
  obtain ⟨tB, lB⟩ := ParserGetString_ok _ hs
  have tS1 := ParserSkipWhitespace_text p' false
  have lS1 := ParserSkipWhitespace_pos_le p' false
  have tS2 := ParserSkipWhitespace_text p2 false
  have lS2 := ParserSkipWhitespace_pos_le p2 false
  refine ⟨⟨?_, ?_⟩, rfl, rfl⟩
  · show p4.text = p'.text
    rw [tB, tS2, tA, tS1]
  · show p'.pos ≤ p4.pos
    omega

theorem handleCaptionDir_noFuel (st : PState) (p' : Parser) :
    handleCaptionDir st p' ≠ .error .fuelOut := by
  intro h
  rcases he : ParserExpect (ParserSkipWhitespace p' false) ['='] with e | p2
  · simp only [handleCaptionDir, he] at h
    rw [Except.error.inj h] at he
    exact ParserExpect_noFuel _ _ he
  simp only [handleCaptionDir, he] at h
  rcases hs : ParserGetString (ParserSkipWhitespace p2 false) with e | ⟨s, p4⟩
  · simp only [hs] at h
    rw [Except.error.inj h] at hs
    exact ParserGetString_noFuel _ hs
  simp only [hs] at h
  exact Except.noConfusion h

theorem handleSlide_ok (st : PState) (p' : Parser) {st' : PState}
    (h : handleSlide st p' = .ok st') :
    (st'.p.text = p'.text ∧ p'.pos ≤ st'.p.pos) ∧
      ∃ it, st'.items = it :: st.items ∧
        st'.totalDuration = bumpTotal st.totalDuration (it.startTime + it.duration) := by
  rcases hscr : st.screen with _ | scr
  · simp only [handleSlide, hscr] at h
    exact Except.noConfusion h
  simp only [handleSlide, hscr] at h
  rcases hr : slideRead st.imageDir p' with e | ⟨file, d, p2⟩
  · simp only [hr] at h
    exact Except.noConfusion h
  simp only [hr] at h
  obtain rfl := Except.ok.inj h
  exact ⟨slideRead_ok _ _ hr, _, rfl, rfl⟩

theorem handleSlide_noFuel (st : PState) (p' : Parser) :
    handleSlide st p' ≠ .error .fuelOut := by
  intro h
  rcases hscr : st.screen with _ | scr
  · simp only [handleSlide, hscr] at h
    exact absurd (Except.error.inj h) (by simp)
  simp only [handleSlide, hscr] at h
  rcases hr : slideRead st.imageDir p' with e | ⟨file, d, p2⟩
  · simp only [hr] at h
    rw [Except.error.inj h] at hr
    exact slideRead_noFuel _ _ hr
  simp only [hr] at h
  exact Except.noConfusion h

theorem handleImage_ok (st : PState) (p' : Parser) {st' : PState}
    (h : handleImage st p' = .ok st') :
    (st'.p.text = p'.text ∧ p'.pos ≤ st'.p.pos) ∧
      ∃ cap img, st'.items = cap :: img :: st.items ∧
        cap.startTime + cap.duration = img.startTime + img.duration ∧
        st'.totalDuration = bumpTotal st.totalDuration (img.startTime + img.duration) := by
  rcases hscr : st.screen with _ | scr
  · simp only [handleImage, hscr] at h
    exact Except.noConfusion h
  simp only [handleImage, hscr] at h
  rcases hr : imageRead p' with e | ⟨fnum, sz, px1, c1, px2, c2, p2⟩
  · simp only [hr] at h
    exact Except.noConfusion h
  simp only [hr] at h
  obtain rfl := Except.ok.inj h
  exact ⟨imageRead_ok _ hr, _, _, rfl, rfl, rfl⟩

theorem handleImage_noFuel (st : PState) (p' : Parser) :
    handleImage st p' ≠ .error .fuelOut := by
  intro h
  rcases hscr : st.screen with _ | scr
  · simp only [handleImage, hscr] at h
    exact absurd (Except.error.inj h) (by simp)
  simp only [handleImage, hscr] at h
  rcases hr : imageRead p' with e | ⟨fnum, sz, px1, c1, px2, c2, p2⟩
  · simp only [hr] at h
    rw [Except.error.inj h] at hr
    exact imageRead_noFuel _ hr
  simp only [hr] at h
  exact Except.noConfusion h

theorem handleCustom_ok (st : PState) (p' : Parser) {st' : PState}
    (h : handleCustom st p' = .ok st') :
    (st'.p.text = p'.text ∧ p'.pos ≤ st'.p.pos) ∧
      ∃ it, st'.items = it :: st.items ∧
        st'.totalDuration = bumpTotal st.totalDuration (it.startTime + it.duration) := by
  rcases hscr : st.screen with _ | scr
  · simp only [handleCustom, hscr] at h
    exact Except.noConfusion h
  simp only [handleCustom, hscr] at h
  rcases hr : customRead p' with e | ⟨file, pr, p2⟩
  · simp only [hr] at h
    exact Except.noConfusion h
  simp only [hr] at h
  obtain rfl := Except.ok.inj h
  refine ⟨customRead_ok _ hr, _, rfl, ?_⟩
  show bumpTotal st.totalDuration (pr.start + pr.duration) = _
  rfl

theorem handleCustom_noFuel (st : PState) (p' : Parser) :
    handleCustom st p' ≠ .error .fuelOut := by
  intro h
  rcases hscr : st.screen with _ | scr
  · simp only [handleCustom, hscr] at h
    exact absurd (Except.error.inj h) (by simp)
  simp only [handleCustom, hscr] at h
  rcases hr : customRead p' with e | ⟨file, pr, p2⟩
  · simp only [hr] at h
    rw [Except.error.inj h] at hr
    exact customRead_noFuel _ hr
  simp only [hr] at h
  exact Except.noConfusion h

/-! ### Dispatch and main-loop lemmas -/

theorem bumpTotal_eq_max (td x : ℚ) : bumpTotal td x = max x td := by
  unfold bumpTotal
  split
  · next hgt => exact (max_eq_left (le_of_lt hgt)).symm
  · next hle => exact (max_eq_right (not_lt.1 hle)).symm

theorem specTotalOf_cons (it : FrameData) (l : List FrameData) :
    specTotalOf (it :: l) = max (it.startTime + it.duration) (specTotalOf l) := rfl

/-- One successful iteration of the main loop strictly advances the cursor on
the unchanged text, only prepends items, and preserves the invariant tying
`totalDuration` to the items seen so far. -/
theorem dispatch_ok (st : PState) {st' : PState} (h : dispatch st = .ok st') :
    (st'.p.text = st.p.text ∧ st.p.pos < st'.p.pos) ∧
      List.IsSuffix st.items st'.items ∧
      (st.totalDuration = specTotalOf st.items → st'.totalDuration = specTotalOf st'.items) := by
  have tS := ParserSkipWhitespace_text st.p true
  have lS := ParserSkipWhitespace_pos_le st.p true
  rcases hk1 : ParserCheck (ParserSkipWhitespace st.p true) (String.toList "screen") with _ | p'
  case some =>
    simp only [dispatch, hk1] at h
    obtain ⟨tC, lC⟩ := ParserCheck_some _ _ hk1
    have hlen : 0 < (String.toList "screen").length := by decide
    obtain ⟨⟨tH, lH⟩, hit, htd⟩ := handleScreen_ok st p' h
    refine ⟨⟨by rw [tH, tC, tS], by omega⟩, by rw [hit], fun hinv => by rw [htd, hit, hinv]⟩
  simp only [dispatch, hk1] at h
  rcases hk2 : ParserCheck (ParserSkipWhitespace st.p true) (String.toList "imageDir") with _ | p'
  case some =>
    simp only [hk2] at h
    obtain ⟨tC, lC⟩ := ParserCheck_some _ _ hk2
    have hlen : 0 < (String.toList "imageDir").length := by decide
    obtain ⟨⟨tH, lH⟩, hit, htd⟩ := handleImageDir_ok st p' h
    refine ⟨⟨by rw [tH, tC, tS], by omega⟩, by rw [hit], fun hinv => by rw [htd, hit, hinv]⟩
  simp only [hk2] at h
  rcases hk3 : ParserCheck (ParserSkipWhitespace st.p true) (String.toList "captionDir") with _ | p'
  case some =>
    simp only [hk3] at h
    obtain ⟨tC, lC⟩ := ParserCheck_some _ _ hk3
    have hlen : 0 < (String.toList "captionDir").length := by decide
    obtain ⟨⟨tH, lH⟩, hit, htd⟩ := handleCaptionDir_ok st p' h
    refine ⟨⟨by rw [tH, tC, tS], by omega⟩, by rw [hit], fun hinv => by rw [htd, hit, hinv]⟩
  simp only [hk3] at h
  rcases hk4 : ParserCheck (ParserSkipWhitespace st.p true) (String.toList "slide") with _ | p'
  case some =>
    simp only [hk4] at h
    obtain ⟨tC, lC⟩ := ParserCheck_some _ _ hk4
    have hlen : 0 < (String.toList "slide").length := by decide
    obtain ⟨⟨tH, lH⟩, it, hit, htd⟩ := handleSlide_ok st p' h
    refine ⟨⟨by rw [tH, tC, tS], by omega⟩, ⟨[it], by rw [hit]; rfl⟩, fun hinv => ?_⟩
    rw [htd, hit, specTotalOf_cons, bumpTotal_eq_max, hinv]
  simp only [hk4] at h
  rcases hk5 : ParserCheck (ParserSkipWhitespace st.p true) (String.toList "image") with _ | p'
  case some =>
    simp only [hk5] at h
    obtain ⟨tC, lC⟩ := ParserCheck_some _ _ hk5
    have hlen : 0 < (String.toList "image").length := by decide
    obtain ⟨⟨tH, lH⟩, cap, img, hit, hcd, htd⟩ := handleImage_ok st p' h
    refine ⟨⟨by rw [tH, tC, tS], by omega⟩, ⟨[cap, img], by rw [hit]; rfl⟩, fun hinv => ?_⟩
    rw [htd, hit, specTotalOf_cons, specTotalOf_cons, bumpTotal_eq_max, hinv, hcd,
      ← max_assoc, max_self]
  simp only [hk5] at h
  rcases hk6 : ParserCheck (ParserSkipWhitespace st.p true) (String.toList "customimage") with _ | p'
  case some =>
    simp only [hk6] at h
    obtain ⟨tC, lC⟩ := ParserCheck_some _ _ hk6
    have hlen : 0 < (String.toList "customimage").length := by decide
    obtain ⟨⟨tH, lH⟩, it, hit, htd⟩ := handleCustom_ok st p' h
    refine ⟨⟨by rw [tH, tC, tS], by omega⟩, ⟨[it], by rw [hit]; rfl⟩, fun hinv => ?_⟩
    rw [htd, hit, specTotalOf_cons, bumpTotal_eq_max, hinv]
  simp only [hk6] at h
  rcases hn : ParserNext (ParserSkipWhitespace st.p true) with e | ⟨c, pn⟩
  · simp only [hn] at h
    exact Except.noConfusion h
  simp only [hn] at h
  obtain rfl := Except.ok.inj h
  obtain ⟨tN, lN⟩ := ParserNext_ok _ hn
  refine ⟨⟨?_, ?_⟩, ⟨[], rfl⟩, fun hinv => hinv⟩
  · show pn.text = st.p.text
    rw [tN, tS]
  · show st.p.pos < pn.pos
    omega

theorem dispatch_noFuel (st : PState) : dispatch st ≠ .error .fuelOut := by
  intro h
  rcases hk1 : ParserCheck (ParserSkipWhitespace st.p true) (String.toList "screen") with _ | p'
  case some =>
    simp only [dispatch, hk1] at h
    exact handleScreen_noFuel st p' h
  simp only [dispatch, hk1] at h
  rcases hk2 : ParserCheck (ParserSkipWhitespace st.p true) (String.toList "imageDir") with _ | p'
  case some =>
    simp only [hk2] at h
    exact handleImageDir_noFuel st p' h
  simp only [hk2] at h
  rcases hk3 : ParserCheck (ParserSkipWhitespace st.p true) (String.toList "captionDir") with _ | p'
  case some =>
    simp only [hk3] at h
    exact handleCaptionDir_noFuel st p' h
  simp only [hk3] at h
  rcases hk4 : ParserCheck (ParserSkipWhitespace st.p true) (String.toList "slide") with _ | p'
  case some =>
    simp only [hk4] at h
    exact handleSlide_noFuel st p' h
  simp only [hk4] at h
  rcases hk5 : ParserCheck (ParserSkipWhitespace st.p true) (String.toList "image") with _ | p'
  case some =>
    simp only [hk5] at h
    exact handleImage_noFuel st p' h
  simp only [hk5] at h
  rcases hk6 : ParserCheck (ParserSkipWhitespace st.p true) (String.toList "customimage") with _ | p'
  case some =>
    simp only [hk6] at h
    exact handleCustom_noFuel st p' h
  simp only [hk6] at h
  rcases hn : ParserNext (ParserSkipWhitespace st.p true) with e | ⟨c, pn⟩
  · simp only [hn] at h
    rw [Except.error.inj h] at hn
    exact ParserNext_noFuel _ hn
  simp only [hn] at h
  exact Except.noConfusion h

/-- Main-loop bookkeeping: on success the initial items are a suffix of the
result (new items are only ever prepended), and the `totalDuration` invariant
is carried to the returned value. -/
theorem parseGo_ok (n : Nat) (st : PState) {its : List FrameData} {td : ℚ}
    (h : parseGo n st = .ok (its, td)) :
    List.IsSuffix st.items its ∧
      (st.totalDuration = specTotalOf st.items → td = specTotalOf its) := by
  induction n generalizing st with
  | zero => exact absurd h (by simp [parseGo])
  | succ n ih =>
    simp only [parseGo] at h
    split at h
    · simp only [Except.ok.injEq, Prod.mk.injEq] at h
      obtain ⟨h1, h2⟩ := h
      subst h1; subst h2
      exact ⟨List.suffix_refl _, fun hinv => hinv⟩
    · rcases hd : dispatch st with e | st'
      · simp only [hd] at h
        exact Except.noConfusion h
      simp only [hd] at h
      obtain ⟨-, hsuf, hinv⟩ := dispatch_ok st hd
      obtain ⟨hsuf', hinv'⟩ := ih st' h
      exact ⟨hsuf.trans hsuf', fun h0 => hinv' (hinv h0)⟩

/-- Fuel sufficiency of the main loop: with a budget exceeding the remaining
character count plus one, the loop never reports fuel exhaustion, because each
iteration strictly advances the cursor and the cursor never moves more than
one byte past the end. -/
theorem parseGo_noFuel (n : Nat) (st : PState)
    (hm : st.p.text.length + 1 - st.p.pos < n) : parseGo n st ≠ .error .fuelOut := by
  induction n generalizing st with
  | zero => exact absurd hm (by omega)
  | succ n ih =>
    simp only [parseGo]
    split
    · simp
    · next hend =>
      have hlt : st.p.pos < st.p.text.length := by
        simp only [ParserAtEnd, decide_eq_true_eq] at hend
        omega
      rcases hd : dispatch st with e | st'
      · intro hc
        rw [Except.error.inj hc] at hd
        exact dispatch_noFuel st hd
      obtain ⟨⟨tD, lD⟩, -, -⟩ := dispatch_ok st hd
      refine ih st' ?_
      rw [tD]
      omega

/-! ### Keyword disjointness

The dispatch order of `ParserGetImages` tries `screen`, `imageDir`,
`captionDir`, `slide`, `image`, `customimage` in turn; these lemmas show that
an input matching one of the item keywords as a word cannot match any of the
keywords tried before it. -/

/-- Two keyword lists conflict when they disagree at some position where both
still have characters; then no input starts with both. -/
def CharsConflict : List Char → List Char → Bool
  | a :: w, b :: v => (a != b) || CharsConflict w v
  | _, _ => false

theorem ssw_conflict : ∀ (w v s : List Char), CharsConflict w v = true →
    StringStartsWith s w = true → StringStartsWith s v = false := by
  intro w
  induction w with
  | nil => intro v s hc; exact absurd hc (by cases v <;> simp [CharsConflict])
  | cons a w ih =>
    intro v s hc hs
    cases v with
    | nil => exact absurd hc (by simp [CharsConflict])
    | cons b v =>
      cases s with
      | nil => exact absurd hs (by simp [StringStartsWith])
      | cons c s =>
        simp only [StringStartsWith, Bool.and_eq_true, beq_iff_eq] at hs
        obtain ⟨rfl, hs⟩ := hs
        simp only [CharsConflict, Bool.or_eq_true, bne_iff_ne] at hc
        simp only [StringStartsWith, Bool.and_eq_false_iff]
        rcases hc with hab | hc
        · exact Or.inl (by simpa using hab)
        · exact Or.inr (ih v s hc hs)

/-- A word-boundary match of `w` rules out any keyword extending `w` with an
alphanumeric character: the boundary character cannot be alphanumeric. -/
theorem ssww_not_extended : ∀ (w s : List Char) (c : Char) (v : List Char),
    (IsAlpha c = true ∨ IsNumber c = true) →
    StringStartsWithWord s w = true →
    StringStartsWith s (w ++ c :: v) = false := by
  intro w
  induction w with
  | nil =>
    intro s c v hc h
    simp only [StringStartsWithWord, List.drop_zero, Bool.and_eq_true] at h
    obtain ⟨-, hb⟩ := h
    cases s with
    | nil => simp [StringStartsWith]
    | cons a s =>
      simp only [List.nil_append, StringStartsWith, Bool.and_eq_false_iff]
      refine Or.inl ?_
      simp only [List.length_nil, List.drop_zero, Bool.and_eq_true, Bool.not_eq_true'] at hb
      obtain ⟨hn, ha⟩ := hb
      have : a ≠ c := by
        intro hac
        subst hac
        rcases hc with hc | hc
        · rw [hc] at ha; exact Bool.noConfusion ha
        · rw [hc] at hn; exact Bool.noConfusion hn
      simpa using this
  | cons b w ih =>
    intro s c v hc h
    cases s with
    | nil => exact absurd h (by simp [StringStartsWithWord, StringStartsWith])
    | cons a s =>
      have hsplit : a = b ∧ StringStartsWithWord s w = true := by
        simp only [StringStartsWithWord, StringStartsWith, List.length_cons,
          List.drop_succ_cons, Bool.and_eq_true, beq_iff_eq] at h ⊢
        obtain ⟨⟨rfl, h1⟩, h2⟩ := h
        exact ⟨rfl, by simp [h1, h2]⟩
      obtain ⟨rfl, hw⟩ := hsplit
      simp only [List.cons_append, StringStartsWith, Bool.and_eq_false_iff]
      exact Or.inr (ih s c v hc hw)

theorem ParserCheck_some_ssww (p : Parser) (w : List Char) {p' : Parser}
    (h : ParserCheck p w = some p') :
    StringStartsWithWord (p.text.drop p.pos) w = true := by
  unfold ParserCheck at h
  split at h
  · next hs => exact hs
  · exact absurd h (by simp)

theorem ParserCheck_none_of_ssw (p : Parser) (w : List Char)
    (h : StringStartsWith (p.text.drop p.pos) w = false) : ParserCheck p w = none := by
  unfold ParserCheck StringStartsWithWord
  rw [h]
  simp

theorem ssww_ssw {s w : List Char} (h : StringStartsWithWord s w = true) :
    StringStartsWith s w = true := by
  unfold StringStartsWithWord at h
  exact (Bool.and_eq_true .. ▸ h).1

/-! ### Bounds for the wrap-around loop -/

theorem wrapGo_bounds : ∀ (n : Nat) (ft total : ℚ), 0 < total → 0 ≤ ft →
    ft / total ≤ (n : ℚ) → 0 ≤ wrapGo n ft total ∧ wrapGo n ft total ≤ total := by
  intro n
  induction n with
  | zero =>
    intro ft total ht hf hn
    have : ft ≤ 0 := by
      have := (div_le_iff₀ ht).1 (by simpa using hn)
      simpa using this
    have hf0 : ft = 0 := le_antisymm this hf
    simp only [wrapGo, hf0]
    exact ⟨le_refl 0, le_of_lt ht⟩
  | succ n ih =>
    intro ft total ht hf hn
    simp only [wrapGo]
    split
    · next hlt =>
      refine ih (ft - total) total ht (by linarith) ?_
      rw [sub_div, div_self (ne_of_gt ht)]
      push_cast at hn ⊢
      linarith
    · next hge => exact ⟨hf, le_of_not_lt hge⟩

theorem wrapReduce_bounds (ft total : ℚ) (ht : 0 < total) (hf : 0 ≤ ft) :
    0 ≤ wrapReduce ft total ∧ wrapReduce ft total ≤ total := by
  refine wrapGo_bounds _ ft total ht hf ?_
  unfold wrapFuel
  have h1 : ft / total ≤ ((⌈ft / total⌉ : ℤ) : ℚ) := Int.le_ceil _
  have h2 : (⌈ft / total⌉ : ℤ) ≤ ((⌈ft / total⌉.toNat : ℕ) : ℤ) := Int.self_le_toNat _
  have h3 : ((⌈ft / total⌉ : ℤ) : ℚ) ≤ ((⌈ft / total⌉.toNat : ℕ) : ℚ) := by
    exact_mod_cast h2
  push_cast
  linarith

/-! ### Claims -/

/-- Helper: one tick of `display` while started, written out. -/
theorem displayTick_started (st : ClockState) (now : ℚ) (h : st.started = true) :
    displayTick st now =
      ({ st with
          frameTime := wrapReduce (now - st.frameStart) st.totalDuration,
          lastFrameTime := wrapReduce (now - st.frameStart) st.totalDuration },
        decide (wrapReduce (now - st.frameStart) st.totalDuration < st.lastFrameTime)) := by
  unfold displayTick
  rw [h]
  rfl

/-- Concrete item for the alpha boundary scenario of claim C1:
`start = 10, duration = 5, fadeIn = 1, fadeOut = 1`. -/
def c1Item : FrameData :=
  ⟨String.toList "item", 10, 5, 1, 1, ⟨0, 0⟩, ⟨1, 1⟩⟩

/-- Claim C1 (confirmed): the per-item alpha is a pure function of
`(frameTime, startTime, duration, fadeIn, fadeOut)`; it is 0 before
`startTime` and from `elapsed ≥ duration` on, ramps as `elapsed / fadeIn`
while `fadeIn > 0 ∧ elapsed < fadeIn` (checked first), then as
`(duration − elapsed) / fadeOut` while that as-stated window applies, else 1;
and at the boundary scenario `start=10, duration=5, fadeIn=fadeOut=1` the
values at frame times 9.9, 10.5, 12.5, 14.5, 15.1 are 0, 1/2, 1, 1/2, 0. -/
theorem claim1_alpha :
    (∀ (frameTime : ℚ) (it : FrameData),
        FrameDataAlpha frameTime it =
          alphaSpecC1 frameTime it.startTime it.duration it.fadeIn it.fadeOut) ∧
    FrameDataAlpha (99/10) c1Item = 0 ∧
    FrameDataAlpha (21/2) c1Item = 1/2 ∧
    FrameDataAlpha (25/2) c1Item = 1 ∧
    FrameDataAlpha (29/2) c1Item = 1/2 ∧
    FrameDataAlpha (151/10) c1Item = 0 := by
  refine ⟨fun ft it => ?_, ?_, ?_, ?_, ?_, ?_⟩
  · unfold FrameDataAlpha alphaSpecC1
    dsimp only
    rcases lt_or_ge ft it.startTime with h1 | h1
    · rw [if_neg (not_le.2 h1), if_pos h1]
    · rw [if_pos h1, if_neg (not_lt.2 h1)]
      rcases lt_or_ge (ft - it.startTime) it.duration with h2 | h2
      · rw [if_pos h2, if_neg (not_le.2 h2)]
      · rw [if_neg (not_lt.2 h2), if_pos h2]
  all_goals with_unfolding_all decide

/-- Input refuting claim C2: one item whose `start + duration = 0.5` stays
below the file-scope initial `totalDuration = 1.0`. -/
def c2cxInput : String :=
  "screen = 1, 1\ncustomimage \"a\" \x7b duration = 0.5 \x7d\n"

/-- The single item the C2 counterexample file declares. -/
def c2cxItem : FrameData :=
  ⟨['a'], 0, 1/2, 1, 1, ⟨0, 0⟩, ⟨0, 0⟩⟩

/-- Claim C2 counterexample: a valid file with one declared item whose
`startTime + duration = 1/2` parses to `totalDuration = 1` (the initial value
of the global), not to the maximum `1/2` over the declared items, refuting
"the timeline's total loop duration equals the maximum over all declared
items of startTime + duration". -/
theorem claim2_counterexample :
    parseFile c2cxInput = .ok ([c2cxItem], 1) ∧
    c2cxItem.startTime + c2cxItem.duration = 1/2 ∧
    (1 : ℚ) ≠ 1/2 := by
  refine ⟨?_, ?_, ?_⟩ <;> with_unfolding_all decide

/-- Claim C2 as amended: after parsing any description file, the total loop
duration equals the incremental maximum of `startTime + duration` over the
declared items seeded with the initial value `1.0` of the file-scope
`totalDuration` (`specTotalOf`); it is updated incrementally as each item is
added. -/
theorem claim2_amended (s : String) (its : List FrameData) (td : ℚ)
    (h : parseFile s = .ok (its, td)) : td = specTotalOf its :=
  (parseGo_ok _ _ h).2 rfl

/-- Input for the C2 witness: one item with `start + duration = 9 > 1`. -/
def c2wInput : String :=
  "screen = 1, 1\ncustomimage \"a\" \x7b duration = 9 \x7d\n"

/-- The single item the C2 witness file declares. -/
def c2wItem : FrameData :=
  ⟨['a'], 0, 9, 1, 1, ⟨0, 0⟩, ⟨0, 0⟩⟩

/-- Witness for the amended claim C2 at a concrete file. -/
theorem claim2_witness :
    parseFile c2wInput = .ok ([c2wItem], 9) ∧ (9 : ℚ) = specTotalOf [c2wItem] :=
  ⟨by with_unfolding_all decide,
    claim2_amended c2wInput [c2wItem] 9 (by with_unfolding_all decide)⟩

/-- Input declaring items A, then B, then C, for claim C3. -/
def c3Input : String :=
  "screen = 1, 1\ncustomimage \"A\" \x7b start = 0 duration = 1 \x7d\ncustomimage \"B\" \x7b start = 1 duration = 1 \x7d\ncustomimage \"C\" \x7b start = 2 duration = 1 \x7d\n"

set_option maxRecDepth 40000 in
/-- Claim C3 (confirmed): every new item is prepended — whatever items the
interpreter state already holds form a suffix of any successful parse result,
in order — and the file declaring A then B then C yields the Timeline Model
C, B, A when consumed head-to-tail. -/
theorem claim3_ordering :
    (∀ (n : Nat) (st : PState) (its : List FrameData) (td : ℚ),
        parseGo n st = .ok (its, td) → List.IsSuffix st.items its) ∧
    Except.map (fun r => r.1.map FrameData.source) (parseFile c3Input) =
      .ok [['C'], ['B'], ['A']] :=
  ⟨fun n st _ _ h => (parseGo_ok n st h).1, by with_unfolding_all decide⟩

/-- A pre-existing item for the C3 witness state. -/
def c3wItem : FrameData :=
  ⟨['w'], 0, 5, 1, 1, ⟨0, 0⟩, ⟨0, 0⟩⟩

/-- Interpreter state holding one item over an input of one unknown byte. -/
def c3wState : PState :=
  { initState (String.toList "x") with items := [c3wItem] }

/-- Witness for claim C3 at a concrete state and input. -/
theorem claim3_witness : List.IsSuffix c3wState.items [c3wItem] :=
  claim3_ordering.1 3 c3wState [c3wItem] 1 (by with_unfolding_all decide)

/-- Input refuting claim C4: two `slide` directives with the non-integer
parsed duration 2.5. -/
def c4cxInput : String :=
  "screen = 1, 1\nslide \"a\" 2.5\nslide \"b\" 2.5"

/-- First slide of the C4 counterexample: duration truncated to 4, not 4.5. -/
def c4cxItemA : FrameData :=
  ⟨['a'], 0, 4, 1, 1, ⟨1, 0⟩, ⟨4, 4⟩⟩

/-- Second slide of the C4 counterexample: it starts at 5, not 5.5. -/
def c4cxItemB : FrameData :=
  ⟨['b'], 5, 4, 1, 1, ⟨1, 0⟩, ⟨4, 4⟩⟩

/-- Claim C4 counterexample: for `slide "a" 2.5` the created item has
duration 4 ≠ 2.5 + 2 (the C declaration `int frameDuration` truncates), and
the next slide starts at 5 ≠ 0 + (2.5 + 3), refuting the claimed exact
`d + 2` / `d + 3` arithmetic for every parsed duration `d`. -/
theorem claim4_counterexample :
    parseFile c4cxInput = .ok ([c4cxItemB, c4cxItemA], 9) ∧
    c4cxItemA.duration ≠ 5/2 + 2 ∧
    c4cxItemB.startTime ≠ 0 + (5/2 + 3) := by
  refine ⟨?_, ?_, ?_⟩ <;> with_unfolding_all decide

/-- Claim C4 as amended: a `slide` directive with parsed duration `d` creates
one item with `startTime` the running offset `loadStartTime`,
`duration = trunc(d + 2)` (float-to-int truncation toward zero, from the
`int` declaration of `frameDuration`), `fadeIn = fadeOut = 1`, and advances
`loadStartTime` by exactly `trunc(d + 2) + 1`; these equal `d + 2` and
`d + 3` exactly when `d` is an integer. -/
theorem claim4_amended (st : PState) (p' : Parser) (scr : Vec2)
    (file : List Char) (d : ℚ) (p2 : Parser)
    (hscr : st.screen = some scr)
    (hr : slideRead st.imageDir p' = .ok (file, d, p2)) :
    ∃ it, handleSlide st p' = .ok (applySlide st scr file d p2) ∧
      (applySlide st scr file d p2).items = it :: st.items ∧
      it.startTime = (st.loadStartTime : ℚ) ∧
      it.duration = ((truncQ (d + 2) : ℤ) : ℚ) ∧
      it.fadeIn = 1 ∧ it.fadeOut = 1 ∧
      (applySlide st scr file d p2).loadStartTime =
        st.loadStartTime + (truncQ (d + 2) + 1) := by
  refine ⟨_, ?_, rfl, rfl, rfl, rfl, rfl, rfl⟩
  simp only [handleSlide, hscr, hr]

/-- Interpreter state for the C4 witness, cursor at the arguments of a
`slide` directive with parsed duration 2.5. -/
def c4wState : PState :=
  ⟨CreateParser (String.toList " \"a\" 2.5"), some ⟨1, 1⟩, [], [], 0, 1, 1, []⟩

/-- Cursor position after reading the C4 witness slide arguments. -/
def c4wP2 : Parser :=
  ⟨String.toList " \"a\" 2.5", 8, 1, 9⟩

/-- Witness for the amended claim C4 at a concrete state. -/
theorem claim4_witness :
    ∃ it, handleSlide c4wState c4wState.p = .ok (applySlide c4wState ⟨1, 1⟩ ['a'] (5/2) c4wP2) ∧
      (applySlide c4wState ⟨1, 1⟩ ['a'] (5/2) c4wP2).items = it :: c4wState.items ∧
      it.startTime = (c4wState.loadStartTime : ℚ) ∧
      it.duration = ((truncQ ((5/2) + 2) : ℤ) : ℚ) ∧
      it.fadeIn = 1 ∧ it.fadeOut = 1 ∧
      (applySlide c4wState ⟨1, 1⟩ ['a'] (5/2) c4wP2).loadStartTime =
        c4wState.loadStartTime + (truncQ ((5/2) + 2) + 1) :=
  claim4_amended c4wState c4wState.p ⟨1, 1⟩ ['a'] (5/2) c4wP2 rfl
    (by with_unfolding_all decide)

/-- Claim C5 counterexample: with `totalLoopDuration = 20` and a raw elapsed
time of exactly 20, the wrap loop (`while (frameTime > totalDuration)`)
leaves `frameTime = 20`, which is not in the claimed half-open interval
`[0, totalLoopDuration)`. -/
theorem claim5_counterexample :
    (displayTick ⟨true, 0, 0, 0, 20⟩ 20).1.frameTime = 20 ∧
    ¬ (displayTick ⟨true, 0, 0, 0, 20⟩ 20).1.frameTime < 20 := by
  refine ⟨?_, ?_⟩ <;> with_unfolding_all decide

/-- Claim C5 as amended: on every tick while running, `frameTime` is reduced
by repeatedly subtracting `totalLoopDuration` while it exceeds it, and —
provided `totalLoopDuration > 0` and the clock has not gone behind
`frameStart` — the wrapped `frameTime` lies in the closed interval
`[0, totalLoopDuration]`; the upper endpoint is reached exactly at raw
elapsed times that are positive multiples of the loop duration. -/
theorem claim5_amended (st : ClockState) (now : ℚ) (hs : st.started = true)
    (ht : 0 < st.totalDuration) (hm : st.frameStart ≤ now) :
    0 ≤ (displayTick st now).1.frameTime ∧
      (displayTick st now).1.frameTime ≤ st.totalDuration := by
  rw [displayTick_started st now hs]
  dsimp only
  exact wrapReduce_bounds _ _ ht (sub_nonneg.2 hm)

/-- Witness for the amended claim C5: raw elapsed 21 against loop duration
20. -/
theorem claim5_witness :
    0 ≤ (displayTick ⟨true, 0, 0, 0, 20⟩ 21).1.frameTime ∧
      (displayTick ⟨true, 0, 0, 0, 20⟩ 21).1.frameTime ≤
        (⟨true, 0, 0, 0, 20⟩ : ClockState).totalDuration :=
  claim5_amended ⟨true, 0, 0, 0, 20⟩ 21 rfl (by with_unfolding_all decide)
    (by with_unfolding_all decide)

/-- Claim C6 (confirmed): the loop-wrap event fires on a running tick exactly
when the wrapped `frameTime` is below the stored `previousFrameTime`
(`lastFrameTime`), never fires while not started, fires at most once per wrap
(a following tick whose wrapped time has not moved backwards does not fire),
and in the scenario `totalLoopDuration = 20`, previous `frameTime = 19.5`,
raw elapsed 21, exactly one event fires with wrapped `frameTime = 1`. -/
theorem claim6_loopwrap :
    (∀ (st : ClockState) (now : ℚ), st.started = false →
        displayTick st now = (st, false)) ∧
    (∀ (st : ClockState) (now : ℚ), st.started = true →
        ((displayTick st now).2 = true ↔
          (displayTick st now).1.frameTime < st.lastFrameTime)) ∧
    (∀ (st : ClockState) (now now' : ℚ), st.started = true →
        (displayTick st now).1.frameTime ≤
          (displayTick (displayTick st now).1 now').1.frameTime →
        (displayTick (displayTick st now).1 now').2 = false) ∧
    displayTick ⟨true, 0, 39/2, 39/2, 20⟩ 21 = (⟨true, 0, 1, 1, 20⟩, true) := by
  refine ⟨fun st now h => ?_, fun st now h => ?_, fun st now now' h hle => ?_, ?_⟩
  · unfold displayTick
    rw [h]
    rfl
  · rw [displayTick_started st now h]
    dsimp only
    rw [decide_eq_true_eq]
  · rw [displayTick_started st now h] at hle ⊢
    have h1 : ({ st with
        frameTime := wrapReduce (now - st.frameStart) st.totalDuration,
        lastFrameTime := wrapReduce (now - st.frameStart) st.totalDuration } :
          ClockState).started = true := h
    rw [displayTick_started _ now' h1] at hle ⊢
    dsimp only at hle ⊢
    exact decide_eq_false (not_lt.2 hle)
  · with_unfolding_all decide

/-- Witness for claim C6: a tick while not started changes nothing and fires
no event. -/
theorem claim6_witness :
    displayTick ⟨false, 0, 5, 5, 20⟩ 7 = (⟨false, 0, 5, 5, 20⟩, false) :=
  claim6_loopwrap.1 ⟨false, 0, 5, 5, 20⟩ 7 rfl

/-- Claim C7 (confirmed): when the screen is not yet set and the dispatch
position matches one of the item keywords `slide`, `image`, `customimage` as
a word, the interpreter stops with the line:column-stamped fatal
"screen dimensions have not been set" error, producing no state (and hence no
TimelineItem). -/
theorem claim7_screen_first (st : PState) (hscr : st.screen = none)
    (hw : (∃ q, ParserCheck (ParserSkipWhitespace st.p true)
            (String.toList "slide") = some q) ∨
          (∃ q, ParserCheck (ParserSkipWhitespace st.p true)
            (String.toList "image") = some q) ∨
          (∃ q, ParserCheck (ParserSkipWhitespace st.p true)
            (String.toList "customimage") = some q)) :
    ∃ l c, dispatch st = .error (.fatal l c .screenNotSet) := by
  rcases hw with ⟨q, hq⟩ | ⟨q, hq⟩ | ⟨q, hq⟩
  · have hss := ssww_ssw (ParserCheck_some_ssww _ _ hq)
    have n1 := ParserCheck_none_of_ssw (ParserSkipWhitespace st.p true) (String.toList "screen")
      (ssw_conflict _ _ _ (by decide) hss)
    have n2 := ParserCheck_none_of_ssw (ParserSkipWhitespace st.p true) (String.toList "imageDir")
      (ssw_conflict _ _ _ (by decide) hss)
    have n3 := ParserCheck_none_of_ssw (ParserSkipWhitespace st.p true) (String.toList "captionDir")
      (ssw_conflict _ _ _ (by decide) hss)
    refine ⟨q.line, q.linePos, ?_⟩
    simp only [dispatch, n1, n2, n3, hq, handleSlide, hscr]
  · have hsw := ParserCheck_some_ssww _ _ hq
    have hss := ssww_ssw hsw
    have n1 := ParserCheck_none_of_ssw (ParserSkipWhitespace st.p true) (String.toList "screen")
      (ssw_conflict _ _ _ (by decide) hss)
    have n2 : ParserCheck (ParserSkipWhitespace st.p true) (String.toList "imageDir") = none := by
      refine ParserCheck_none_of_ssw _ _ ?_
      have heq : String.toList "imageDir" =
          String.toList "image" ++ 'D' :: String.toList "ir" := by decide
      rw [heq]
      exact ssww_not_extended _ _ 'D' _ (Or.inl (by decide)) hsw
    have n3 := ParserCheck_none_of_ssw (ParserSkipWhitespace st.p true) (String.toList "captionDir")
      (ssw_conflict _ _ _ (by decide) hss)
    have n4 := ParserCheck_none_of_ssw (ParserSkipWhitespace st.p true) (String.toList "slide")
      (ssw_conflict _ _ _ (by decide) hss)
    refine ⟨q.line, q.linePos, ?_⟩
    simp only [dispatch, n1, n2, n3, n4, hq, handleImage, hscr]
  · have hss := ssww_ssw (ParserCheck_some_ssww _ _ hq)
    have n1 := ParserCheck_none_of_ssw (ParserSkipWhitespace st.p true) (String.toList "screen")
      (ssw_conflict _ _ _ (by decide) hss)
    have n2 := ParserCheck_none_of_ssw (ParserSkipWhitespace st.p true) (String.toList "imageDir")
      (ssw_conflict _ _ _ (by decide) hss)
    have n3 := ParserCheck_none_of_ssw (ParserSkipWhitespace st.p true) (String.toList "captionDir")
      (ssw_conflict _ _ _ (by decide) hss)
    have n4 := ParserCheck_none_of_ssw (ParserSkipWhitespace st.p true) (String.toList "slide")
      (ssw_conflict _ _ _ (by decide) hss)
    have n5 := ParserCheck_none_of_ssw (ParserSkipWhitespace st.p true) (String.toList "image")
      (ssw_conflict _ _ _ (by decide) hss)
    refine ⟨q.line, q.linePos, ?_⟩
    simp only [dispatch, n1, n2, n3, n4, n5, hq, handleCustom, hscr]

/-- Witness for claim C7: an `image` directive at the start of the file, with
no `screen` directive before it. -/
theorem claim7_witness :
    ∃ l c, dispatch (initState (String.toList "image 1")) =
      .error (.fatal l c .screenNotSet) :=
  claim7_screen_first (initState (String.toList "image 1")) rfl
    (Or.inr (Or.inl ⟨⟨String.toList "image 1", 5, 1, 6⟩, by with_unfolding_all decide⟩))

/-- Claim C8 counterexample: calling `ParserNext` on an empty text (position
0 = end) succeeds silently with the NUL sentinel and leaves the position at
1 > end — no fatal error — refuting the claimed invariant
`0 ≤ position ≤ end` after every sequence of cursor operations. -/
theorem claim8_counterexample :
    ParserNext (CreateParser []) = .ok (Char.ofNat 0, ⟨[], 1, 1, 2⟩) ∧
    (⟨[], 1, 1, 2⟩ : Parser).text.length < (⟨[], 1, 1, 2⟩ : Parser).pos := by
  refine ⟨?_, ?_⟩ <;> with_unfolding_all decide

/-- Claim C8 as amended: the cursor invariant is `0 ≤ position ≤ end + 1`:
`ParserNext` succeeds whenever `position ≤ end` — including exactly at the
end, where it silently returns the sentinel and moves to `end + 1` — and
fails fatally (with line:column) exactly when the position is already
strictly past the end. -/
theorem claim8_amended (p : Parser) :
    (p.pos ≤ p.text.length →
        ParserNext p = .ok (ParserPeek p, (ParserAdvance p).2) ∧
        (ParserAdvance p).2.pos = p.pos + 1 ∧
        (ParserAdvance p).2.pos ≤ p.text.length + 1) ∧
    (p.text.length < p.pos →
        ParserNext p = .error (.fatal p.line p.linePos .endOfFile)) := by
  constructor
  · intro h
    refine ⟨?_, rfl, by simp only [ParserAdvance_pos]; omega⟩
    unfold ParserNext
    rw [if_neg (not_lt.2 h)]
    rfl
  · intro h
    unfold ParserNext
    rw [if_pos h]

/-- Witness for the amended claim C8: a cursor already past the end fails
fatally. -/
theorem claim8_witness :
    ParserNext (⟨[], 2, 3, 4⟩ : Parser) = .error (.fatal 3 4 .endOfFile) :=
  (claim8_amended ⟨[], 2, 3, 4⟩).2 (by decide)

/-- Unterminated C9 input: the `customimage` block ends at end-of-input right
after `}`. -/
def c9aInput : String :=
  "screen = 1, 1\ncustomimage \"f\" \x7b start = 1 duration = 2 \x7d"

/-- The same input with the mandatory newline after `}`. -/
def c9bInput : String :=
  "screen = 1, 1\ncustomimage \"f\" \x7b start = 1 duration = 2 \x7d\n"

/-- Claim C9 (confirmed): after the closing `}` of a `customimage` block the
parser skips spaces and demands a newline — `ParserExpect` fails fatally with
"expected newline" whenever the upcoming text does not start with one, which
includes end-of-input — while no newline is needed between the property
assignments inside the block (the concrete block writes `start` and
`duration` on one line and parses once the trailing newline is present). -/
theorem claim9_newline :
    (∀ p : Parser, StringStartsWith (p.text.drop p.pos) ['\n'] = false →
        ParserExpect p ['\n'] = .error (.fatal p.line p.linePos .expectedNewline)) ∧
    parseFile c9aInput = .error (.fatal 2 43 .expectedNewline) ∧
    parseFile c9bInput = .ok ([⟨['f'], 1, 2, 1, 1, ⟨0, 0⟩, ⟨0, 0⟩⟩], 3) := by
  refine ⟨fun p h => ?_, ?_, ?_⟩
  · unfold ParserExpect
    rw [h]
    simp
  · with_unfolding_all decide
  · with_unfolding_all decide

/-- Witness for claim C9: a cursor at end-of-input fails the newline
expectation fatally. -/
theorem claim9_witness :
    ParserExpect (⟨['x'], 1, 1, 2⟩ : Parser) ['\n'] =
      .error (.fatal 1 2 .expectedNewline) :=
  claim9_newline.1 ⟨['x'], 1, 1, 2⟩ (by decide)

/-- Claim C10 (confirmed): every successful iteration of the top-level
dispatch loop strictly advances the cursor on unchanged text; a position
matching no directive keyword is skipped exactly one character at a time with
the whole interpreter state otherwise unchanged (no item produced); and with
its `length + 2` iteration budget the whole parse never exhausts its budget —
together with the budget-free single-pass readers this is the termination of
`ParserGetImages` on every finite input. -/
theorem claim10_termination :
    (∀ (st st' : PState), dispatch st = .ok st' →
        st'.p.text = st.p.text ∧ st.p.pos < st'.p.pos) ∧
    (∀ st : PState,
        ParserCheck (ParserSkipWhitespace st.p true) (String.toList "screen") = none →
        ParserCheck (ParserSkipWhitespace st.p true) (String.toList "imageDir") = none →
        ParserCheck (ParserSkipWhitespace st.p true) (String.toList "captionDir") = none →
        ParserCheck (ParserSkipWhitespace st.p true) (String.toList "slide") = none →
        ParserCheck (ParserSkipWhitespace st.p true) (String.toList "image") = none →
        ParserCheck (ParserSkipWhitespace st.p true) (String.toList "customimage") = none →
        (ParserSkipWhitespace st.p true).pos ≤ st.p.text.length →
        dispatch st = .ok { st with p := (ParserAdvance (ParserSkipWhitespace st.p true)).2 }) ∧
    (∀ s : String, parseFile s ≠ .error .fuelOut) := by
  refine ⟨fun st st' h => (dispatch_ok st h).1, fun st h1 h2 h3 h4 h5 h6 hle => ?_, fun s => ?_⟩
  · simp only [dispatch, h1, h2, h3, h4, h5, h6]
    unfold ParserNext
    rw [if_neg ?_]
    rw [ParserSkipWhitespace_text]
    exact not_lt.2 hle
  · refine parseGo_noFuel _ _ ?_
    show s.toList.length + 1 - 0 < s.toList.length + 2
    omega

/-- Witness for claim C10: an input consisting of a single byte matching no
keyword is consumed one character with no item produced. -/
theorem claim10_witness :
    dispatch (initState ['@']) =
      .ok { initState ['@'] with
              p := (ParserAdvance (ParserSkipWhitespace (initState ['@']).p true)).2 } :=
  claim10_termination.2.1 (initState ['@'])
    (by with_unfolding_all decide) (by with_unfolding_all decide)
    (by with_unfolding_all decide) (by with_unfolding_all decide)
    (by with_unfolding_all decide) (by with_unfolding_all decide)
    (by with_unfolding_all decide)

end Slideshow
